import Mathlib

/-!
Verification of the orchestra task lifecycle engine (src/orchestrator.py,
with the response-separation logic of src/app.py).

Python strings are embedded as lists of characters (`Str`), Python dicts of
scalar metadata values as ordered association lists (`Dict`) with
insert-in-place-or-append semantics, and the file system and network as
explicit effect records.  Every definition is translated from the source;
the doc comment of each definition names the source function it embeds.
-/

/-- Python strings, embedded as lists of characters. -/
abbrev Str := List Char

/-- The characters stripped by Python `str.strip()` (the ASCII fragment). -/
def pySpace (c : Char) : Bool :=
  c = ' ' || c = '\t' || c = '\n' || c = '\r' || c = '\x0b' || c = '\x0c'

/-- Python `str.lstrip()`. -/
def stripL (s : Str) : Str := s.dropWhile pySpace

/-- Python `str.rstrip()`. -/
def stripR (s : Str) : Str := (s.reverse.dropWhile pySpace).reverse

/-- Python `str.strip()`. -/
def pyStrip (s : Str) : Str := stripR (stripL s)

/-- Python `str.lower()` (ASCII fragment). -/
def pyLower (s : Str) : Str := s.map Char.toLower

/-- Python `str.isdigit()` (ASCII fragment): nonempty and all digits. -/
def pyIsDigit (s : Str) : Bool := !s.isEmpty && s.all Char.isDigit

/-- Python `int(s)` on a digit string: the decimal value. -/
def pyDecimal (s : Str) : Nat := s.foldl (fun a c => a * 10 + (c.toNat - 48)) 0

/-- Splits a string at the first occurrence of `sep`, returning the parts
before and after it, or `none` when `sep` does not occur.  Models the
scanning behaviour of Python `str.find`/`str.split`. -/
def splitFirst (sep : Str) : Str → Option (Str × Str)
  | [] => none
  | c :: rest =>
    if sep.isPrefixOf (c :: rest) then some ([], (c :: rest).drop sep.length)
    else match splitFirst sep rest with
      | some (a, b) => some (c :: a, b)
      | none => none

/-- Whether `sep` occurs as a contiguous substring (Python `sep in s`),
for nonempty `sep`. -/
def hasOccur (sep : Str) : Str → Bool
  | [] => false
  | c :: rest => sep.isPrefixOf (c :: rest) || hasOccur sep rest

/-- Python `s.split(sep, 2)` for a nonempty separator. -/
def pySplit2 (sep s : Str) : List Str :=
  match splitFirst sep s with
  | none => [s]
  | some (a, r) =>
    match splitFirst sep r with
    | none => [a, r]
    | some (b, r2) => [a, b, r2]

/-- Python `s.split(c)` on a single-character separator. -/
def splitChar (c : Char) : Str → List Str
  | [] => [[]]
  | a :: rest =>
    if a = c then [] :: splitChar c rest
    else match splitChar c rest with
      | [] => [[a]]
      | r :: rs => (a :: r) :: rs

/-- Python `c.join(lines)` for a single-character separator. -/
def joinChar (c : Char) : List Str → Str
  | [] => []
  | [l] => l
  | l :: l2 :: ls => l ++ c :: joinChar c (l2 :: ls)

/-- Python `str(n)` for a natural number, via fuelled division. -/
def natReprAux : Nat → Nat → Str
  | 0, _ => []
  | _ + 1, 0 => []
  | f + 1, n + 1 => natReprAux f ((n + 1) / 10) ++ [Char.ofNat (48 + (n + 1) % 10)]

/-- Python `str(n)` for a natural number. -/
def natRepr (n : Nat) : Str := if n = 0 then ['0'] else natReprAux (n + 1) n

/-- A scalar metadata value: the string/boolean/integer union produced by
`parse_frontmatter` value coercion. -/
inductive Value where
  | str (s : Str)
  | bool (b : Bool)
  | int (n : Nat)
deriving DecidableEq, Repr

/-- Metadata: an ordered mapping of keys to scalar values (a Python dict). -/
abbrev Dict := List (Str × Value)

/-- Python dict assignment `d[k] = v`: update in place when the key exists,
append otherwise. -/
def dictInsert (d : Dict) (k : Str) (v : Value) : Dict :=
  match d with
  | [] => [(k, v)]
  | (k0, v0) :: rest => if k0 = k then (k0, v) :: rest else (k0, v0) :: dictInsert rest k v

/-- Python `d.get(k)`. -/
def dictGet : Dict → Str → Option Value
  | [], _ => none
  | (k0, v) :: rest, k => if k0 = k then some v else dictGet rest k

/-- Python `d.get(k, dflt)`. -/
def dictGetD (d : Dict) (k : Str) (dflt : Value) : Value := (dictGet d k).getD dflt

/-- The value-coercion step of `parse_frontmatter` (orchestrator.py lines
97-109): strip matching quotes, then coerce boolean-looking and all-digit
strings.  Input is the trimmed raw value text. -/
def coerceRawValue (s : Str) : Value :=
  let v :=
    if List.isPrefixOf ['"'] s && List.isSuffixOf ['"'] s then (s.drop 1).dropLast
    else if List.isPrefixOf ['\''] s && List.isSuffixOf ['\''] s then (s.drop 1).dropLast
    else s
  if pyLower v = "true".data then Value.bool true
  else if pyLower v = "false".data then Value.bool false
  else if pyIsDigit v then Value.int (pyDecimal v)
  else Value.str v

/-- One iteration of the frontmatter line loop of `parse_frontmatter`
(orchestrator.py lines 91-111). -/
def parseLine (metadata : Dict) (line : Str) : Dict :=
  let line := pyStrip line
  if line.contains ':' then
    match splitFirst [':'] line with
    | some (key, value) => dictInsert metadata (pyLower (pyStrip key)) (coerceRawValue (pyStrip value))
    | none => metadata
  else metadata

/-- `parse_frontmatter` (orchestrator.py lines 65-115), on the raw file
text: split off a leading `---`-fenced metadata block, parse its
`key: value` lines, and return the stripped remainder as body. -/
def parse_frontmatter (content : Str) : Dict × Str :=
  if !(List.isPrefixOf "---".data content) then ([], content)
  else
    match pySplit2 "---".data content with
    | [_, p1, p2] =>
      let frontmatter_text := pyStrip p1
      let body := pyStrip p2
      let metadata := (splitChar '\n' frontmatter_text).foldl parseLine []
      (metadata, body)
    | _ => ([], content)

/-- Serialization of one metadata value in `write_frontmatter`
(orchestrator.py lines 124-128): strings are re-quoted, other scalars are
printed as Python prints them. -/
def valueRepr : Value → Str
  | Value.str s => '"' :: s ++ ['"']
  | Value.bool b => if b then "True".data else "False".data
  | Value.int n => natRepr n

/-- `write_frontmatter` (orchestrator.py lines 117-140) as a pure encoder:
the exact text written to the file. -/
def write_frontmatter (metadata : Dict) (content : Str) (response : Option Str) : Str :=
  let frontmatter_lines := metadata.map fun p => p.1 ++ ':' :: ' ' :: valueRepr p.2
  let frontmatter_text := joinChar '\n' frontmatter_lines
  let full := "---\n".data ++ frontmatter_text ++ "\n---\n\n".data ++ content
  match response with
  | some r => if r.isEmpty then full else full ++ "\n\n---\n\n## Response\n\n".data ++ r ++ ['\n']
  | none => full

/-- The response-separation step of `view_task` (app.py lines 340-358):
split the decoded body at the delimiter immediately preceding the
`## Response` heading, returning the task content and optional response. -/
def separateResponse (body : Str) : Str × Option Str :=
  if hasOccur "\n---\n".data body && hasOccur "## Response".data body then
    match splitFirst "\n---\n".data body with
    | some (a, rest) =>
      (pyStrip a,
        match splitFirst "## Response".data rest with
        | some (_, post) => some (pyStrip post)
        | none => none)
    | none => (body, none)
  else (body, none)

-- sanity checks on the codec, on concrete inputs
example : parse_frontmatter "no frontmatter".data = ([], "no frontmatter".data) := by decide
example :
    parse_frontmatter "---\nstatus: \"pending\"\nn: 12\nok: true\n---\n\nbody text".data =
      ([("status".data, Value.str "pending".data), ("n".data, Value.int 12),
        ("ok".data, Value.bool true)], "body text".data) := by decide
example :
    write_frontmatter [("status".data, Value.str "pending".data)] "hi".data none =
      "---\nstatus: \"pending\"\n---\n\nhi".data := by decide
example :
    parse_frontmatter (write_frontmatter [("a".data, Value.str "x".data)] "b".data (some "r".data)) =
      ([("a".data, Value.str "x".data)], "b\n\n---\n\n## Response\n\nr".data) := by decide
example :
    separateResponse "b\n\n---\n\n## Response\n\nr".data = ("b".data, some "r".data) := by decide

/-- The shapes a completion criterion can take at `check_completion_criteria`
(orchestrator.py lines 142-167): absent (`None`), a string, a structured
mapping with optional `contains` and `min_length` clauses, or another
scalar. -/
inductive Criteria where
  | pyNone
  | str (s : Str)
  | dict (contains : Option Str) (min_length : Option Nat)
  | int (n : Nat)
  | bool (b : Bool)
deriving DecidableEq, Repr

/-- Python truthiness of a criteria value (`if not criteria:`).  A `dict`
with neither clause stands for the empty mapping, which is falsy. -/
def criteriaTruthy : Criteria → Bool
  | Criteria.pyNone => false
  | Criteria.str s => !s.isEmpty
  | Criteria.dict c m => c.isSome || m.isSome
  | Criteria.int n => n != 0
  | Criteria.bool b => b

/-- `check_completion_criteria` (orchestrator.py lines 142-167): falsy
criteria accept any reply; a string is a case-insensitive substring test;
a mapping is the conjunction of its present `contains` and `min_length`
clauses; anything else is rejected. -/
def check_completion_criteria (response_text : Str) (criteria : Criteria) : Bool :=
  if !criteriaTruthy criteria then true
  else match criteria with
    | Criteria.str s => hasOccur (pyLower s) (pyLower response_text)
    | Criteria.dict contains min_length =>
      (match contains with
        | some s => hasOccur (pyLower s) (pyLower response_text)
        | none => true) &&
      (match min_length with
        | some n => decide (n ≤ response_text.length)
        | none => true)
    | _ => false

/-- Lifts a metadata value (`metadata.get('completion_criteria')`) to a
criteria shape; frontmatter can only produce scalars. -/
def criteriaOf : Option Value → Criteria
  | none => Criteria.pyNone
  | some (Value.str s) => Criteria.str s
  | some (Value.bool b) => Criteria.bool b
  | some (Value.int n) => Criteria.int n

-- sanity checks against the Python behaviour
example : check_completion_criteria "The Answer".data (Criteria.str "answer".data) = true := by decide
example : check_completion_criteria "short".data (Criteria.dict (some "sh".data) (some 10)) = false := by decide
example : check_completion_criteria "x".data (Criteria.int 0) = true := by decide
example : check_completion_criteria "x".data (Criteria.int 3) = false := by decide

/-- A JSON value, as produced by `json.loads`. -/
inductive Json where
  | null
  | bool (b : Bool)
  | num (n : Int)
  | str (s : Str)
  | arr (elems : List Json)
  | obj (fields : List (Str × Json))

/-- JSON whitespace skipped by the decoder. -/
def jsonWs (c : Char) : Bool := c = ' ' || c = '\t' || c = '\n' || c = '\r'

/-- Scan a JSON string body up to the closing quote.  Escape sequences are
outside the modelled fragment and fail the parse. -/
def parseJsonString : Str → Option (Str × Str)
  | [] => none
  | c :: r =>
    if c = '"' then some ([], r)
    else if c = '\\' then none
    else (parseJsonString r).map fun p => (c :: p.1, p.2)

/-- Leading run of digits and the remainder. -/
def spanDigits (s : Str) : Str × Str := (s.takeWhile Char.isDigit, s.dropWhile Char.isDigit)

mutual

/-- Recursive-descent JSON value parser (a model of `json.loads` on the
fragment the orchestrator exchanges: objects, arrays, strings without
escapes, integer numerals, booleans and null). -/
def parseJsonVal : Nat → Str → Option (Json × Str)
  | 0, _ => none
  | f + 1, s =>
    match s.dropWhile jsonWs with
    | '{' :: rest =>
      (match rest.dropWhile jsonWs with
        | '}' :: r2 => some (Json.obj [], r2)
        | r => (parseJsonFields f r).map fun p => (Json.obj p.1, p.2))
    | '[' :: rest =>
      (match rest.dropWhile jsonWs with
        | ']' :: r2 => some (Json.arr [], r2)
        | r => (parseJsonElems f r).map fun p => (Json.arr p.1, p.2))
    | '"' :: rest => (parseJsonString rest).map fun p => (Json.str p.1, p.2)
    | 't' :: 'r' :: 'u' :: 'e' :: r => some (Json.bool true, r)
    | 'f' :: 'a' :: 'l' :: 's' :: 'e' :: r => some (Json.bool false, r)
    | 'n' :: 'u' :: 'l' :: 'l' :: r => some (Json.null, r)
    | '-' :: r =>
      (match spanDigits r with
        | ([], _) => none
        | (ds, r2) => some (Json.num (-(pyDecimal ds : Int)), r2))
    | r =>
      (match spanDigits r with
        | ([], _) => none
        | (ds, r2) => some (Json.num (pyDecimal ds), r2))

/-- Comma-separated JSON array elements up to the closing bracket. -/
def parseJsonElems : Nat → Str → Option (List Json × Str)
  | 0, _ => none
  | f + 1, s =>
    match parseJsonVal f s with
    | none => none
    | some (v, r) =>
      match r.dropWhile jsonWs with
      | ',' :: r2 => (parseJsonElems f r2).map fun p => (v :: p.1, p.2)
      | ']' :: r2 => some ([v], r2)
      | _ => none

/-- Comma-separated JSON object fields up to the closing brace. -/
def parseJsonFields : Nat → Str → Option (List (Str × Json) × Str)
  | 0, _ => none
  | f + 1, s =>
    match s.dropWhile jsonWs with
    | '"' :: rest =>
      (match parseJsonString rest with
        | none => none
        | some (k, r) =>
          match r.dropWhile jsonWs with
          | ':' :: r2 =>
            (match parseJsonVal f r2 with
              | none => none
              | some (v, r3) =>
                match r3.dropWhile jsonWs with
                | ',' :: r4 => (parseJsonFields f r4).map fun p => ((k, v) :: p.1, p.2)
                | '}' :: r4 => some ([(k, v)], r4)
                | _ => none)
          | _ => none)
    | _ => none

end

/-- `json.loads` on the modelled fragment: the parse must consume the whole
text up to trailing whitespace, exactly as Python raises on extra data. -/
def jsonLoads (s : Str) : Option Json :=
  match parseJsonVal (s.length + 1) s with
  | some (j, rest) => if (rest.dropWhile jsonWs).isEmpty then some j else none
  | none => none

/-- Python `.get(k)` on a parsed JSON object. -/
def jsonGet : Json → Str → Option Json
  | Json.obj fields, k => (fields.find? fun p => p.1 = k).map fun p => p.2
  | _, _ => none

-- sanity checks of the JSON model on the shapes the evaluator returns
example : jsonLoads "\x7b\"a\":\"b\"\x7d".data = some (Json.obj [("a".data, Json.str "b".data)]) := by rfl
example : jsonLoads "prefix \x7b\"a\":1\x7d".data = none := by rfl
example :
    jsonLoads "\x7b\"next_steps\":[\"a\",\"b\"]\x7d".data =
      some (Json.obj [("next_steps".data, Json.arr [Json.str "a".data, Json.str "b".data])]) := by rfl

/-- The validated configuration dictionary produced by `load_config`
(orchestrator.py lines 30-50). -/
structure Config where
  api_url : Str
  api_key : Str
  tasks_directory : Str
  pending_directory : Str
  completed_directory : Str
  failed_directory : Str
  request_timeout : Int
  default_model : Str
  default_workspace : Str
deriving DecidableEq, Repr

/-- The attribute surface of a `config.py` module as seen through
`getattr(module, NAME, default)`: outer `none` means the attribute is
absent, inner `none` means it is explicitly set to Python `None`. -/
structure ConfigModule where
  API_URL : Option (Option Str)
  API_KEY : Option (Option Str)
  TASKS_DIRECTORY : Option (Option Str)
  PENDING_DIRECTORY : Option (Option Str)
  COMPLETED_DIRECTORY : Option (Option Str)
  FAILED_DIRECTORY : Option (Option Str)
  REQUEST_TIMEOUT : Option (Option Int)
  DEFAULT_MODEL : Option (Option Str)
  DEFAULT_WORKSPACE : Option (Option Str)
deriving Repr

/-- `getattr(module, name, dflt)`: the attribute value when present, the
default otherwise. -/
def getattrD (a : Option (Option α)) (dflt : Option α) : Option α :=
  match a with
  | none => dflt
  | some v => v

/-- `load_config` (orchestrator.py lines 10-53) on a present config file:
resolve each attribute against its built-in default, then refuse (return
`none`) when any resolved entry is Python `None`. -/
def load_config (m : ConfigModule) : Option Config :=
  let api_url := getattrD m.API_URL none
  let api_key := getattrD m.API_KEY (some "".data)
  let tasks_directory := getattrD m.TASKS_DIRECTORY (some "./tasks".data)
  let pending_directory := getattrD m.PENDING_DIRECTORY (some "./tasks/pending".data)
  let completed_directory := getattrD m.COMPLETED_DIRECTORY (some "./tasks/completed".data)
  let failed_directory := getattrD m.FAILED_DIRECTORY (some "./tasks/failed".data)
  let request_timeout := getattrD m.REQUEST_TIMEOUT (some 300)
  let default_model := getattrD m.DEFAULT_MODEL (some "llama3".data)
  let default_workspace := getattrD m.DEFAULT_WORKSPACE none
  match api_url, api_key, tasks_directory, pending_directory, completed_directory,
      failed_directory, request_timeout, default_model, default_workspace with
  | some u, some k, some t, some p, some c, some f, some rt, some dm, some dw =>
    some ⟨u, k, t, p, c, f, rt, dm, dw⟩
  | _, _, _, _, _, _, _, _, _ => none

/-- A failure diagnostic from `submit_to_openwebui` (orchestrator.py lines
243-264): the `stage` entry plus the remaining ordered string entries of
the error-log dictionary. -/
structure ErrLog where
  stage : Str
  fields : List (Str × Str)
deriving DecidableEq, Repr

/-- The outcome of one inference call, abstracting the HTTP layer of
`submit_to_openwebui`: either the extracted reply text or the failure
diagnostics (transport error, non-2xx status, timeout, or missing
`choices[0].message.content`). -/
inductive SubmitResult where
  | ok (reply : Str)
  | err (log : ErrLog)
deriving DecidableEq, Repr

/-- `json.dumps` of a plain string value (escape-free fragment), as used on
header entries by `format_error_log`. -/
def jsonDumpsStr (s : Str) : Str := '"' :: s ++ ['"']

/-- One field line of `format_error_log` (orchestrator.py lines 277-285). -/
def formatErrField (p : Str × Str) : Str :=
  if p.1 = "headers".data || p.1 = "response_headers".data then
    "**".data ++ p.1 ++ ":**\n```\n".data ++ jsonDumpsStr p.2 ++ "\n```\n".data
  else if p.1 = "response_text".data || p.1 = "error_message".data then
    "**".data ++ p.1 ++ ":**\n```\n".data ++ p.2 ++ "\n```\n".data
  else "**".data ++ p.1 ++ ":** ".data ++ p.2 ++ ['\n']

/-- `format_error_log` (orchestrator.py lines 266-299) on a single-stage
log entry (the shape every `submit_to_openwebui` failure produces). -/
def format_error_log (log : ErrLog) : Str :=
  joinChar '\n'
    (["## Error Log\n\n".data, "### ".data ++ log.stage ++ ['\n']] ++ log.fields.map formatErrField)

/-- `generate_task_id` (orchestrator.py lines 301-309), over an abstract
hex-digest function standing for SHA-256: the full digest and its first
six characters. -/
def generate_task_id (hash : Str → Str) (timestamp : Str) : Str × Str :=
  (hash timestamp, (hash timestamp).take 6)

/-- The skip state machine of `strip_acceptance_criteria` (orchestrator.py
lines 311-335). -/
def stripACGo : Bool → List Str → List Str
  | _, [] => []
  | skip, l :: ls =>
    if pyStrip l = "## Acceptance Criteria".data then stripACGo true ls
    else if skip then
      if List.isPrefixOf "## ".data l && !(pyStrip l = "## Acceptance Criteria".data) then
        l :: stripACGo false ls
      else stripACGo skip ls
    else l :: stripACGo skip ls

/-- `strip_acceptance_criteria` (orchestrator.py lines 311-335): drop the
`## Acceptance Criteria` section up to the next heading. -/
def strip_acceptance_criteria (content : Str) : Str :=
  joinChar '\n' (stripACGo false (splitChar '\n' content))

example :
    strip_acceptance_criteria "## Acceptance Criteria\nfoo\n## Next\nbar".data =
      "## Next\nbar".data := by decide

/-- `parse_evaluator_response` (orchestrator.py lines 337-378): try the
whole text, then the interior of the first ```json fenced block, then the
span from the first `\x7b` to the last `\x7d`; on total failure return no
data and the fixed error message. -/
def parse_evaluator_response (evaluator_response : Str) : Option Json × Option Str :=
  match jsonLoads evaluator_response with
  | some j => (some j, none)
  | none =>
    let fromBlock : Option Json :=
      match splitFirst "```json".data evaluator_response with
      | some (_, rest) =>
        (match splitFirst "```".data rest with
          | some (mid, _) => jsonLoads (pyStrip mid)
          | none => none)
      | none => none
    match fromBlock with
    | some j => (some j, none)
    | none =>
      let fromBraces : Option Json :=
        match List.findIdx? (fun c => c = '{') evaluator_response with
        | some brace_start =>
          (match List.findIdx? (fun c => c = '}') evaluator_response.reverse with
            | some ri =>
              let brace_end := evaluator_response.length - 1 - ri
              if brace_start < brace_end then
                jsonLoads ((evaluator_response.drop brace_start).take (brace_end + 1 - brace_start))
              else none
            | none => none)
        | none => none
      match fromBraces with
      | some j => (some j, none)
      | none => (none, some "Could not parse JSON from evaluator response".data)

example :
    (parse_evaluator_response "prefix \x7b\"acceptance_status\":\"no\",\"next_steps\":[\"a\",\"b\"]\x7d suffix".data).1 =
      some (Json.obj [("acceptance_status".data, Json.str "no".data),
        ("next_steps".data, Json.arr [Json.str "a".data, Json.str "b".data])]) := by rfl

/-- Whether a character is a lowercase hex digit, for the `_[a-f0-9]{6}$`
suffix pattern of `create_subtask` / `create_next_steps_subtasks`. -/
def isHexLower (c : Char) : Bool := c.isDigit || ('a' ≤ c && c ≤ 'f')

/-- The `re.sub` hash-suffix removal of orchestrator.py lines 390 and 424:
drop a trailing underscore plus six lowercase hex digits when present. -/
def stripHashSuffix (s : Str) : Str :=
  if 7 ≤ s.length &&
      (match s.drop (s.length - 7) with
        | '_' :: rest => rest.all isHexLower
        | _ => false) then
    s.take (s.length - 7)
  else s

/-- `os.path.splitext(os.path.basename(p))[0]` on a `.md` task filename. -/
def stem (fname : Str) : Str :=
  if List.isSuffixOf ".md".data fname then fname.take (fname.length - 3) else fname

/-- Python `str(step)` on a parsed JSON step entry (steps are strings in
the evaluator protocol; other scalars print as Python prints them). -/
def jsonToPyStr : Json → Str
  | Json.str s => s
  | Json.num n => if n < 0 then '-' :: natRepr n.natAbs else natRepr n.natAbs
  | Json.bool b => if b then "True".data else "False".data
  | Json.null => "None".data
  | Json.arr _ => "[...]".data
  | Json.obj _ => "\x7b...\x7d".data

/-- A file created in the pending set: its name, metadata and body. -/
structure NewTask where
  fname : Str
  metadata : Dict
  body : Str
deriving DecidableEq, Repr

/-- `create_subtask` (orchestrator.py lines 380-411): the evaluation
subtask written to the pending directory, carrying the raw evaluator reply
as body and the fixed `evaluator` workspace. -/
def create_subtask (cfg : Config) (nowC now : Str) (original_task_name evaluator_response : Str)
    (original_metadata : Dict) : NewTask :=
  let cleaned_task_name := stripHashSuffix original_task_name
  { fname := cleaned_task_name ++ '_' :: nowC ++ ".md".data
    metadata :=
      [("status".data, Value.str "pending".data),
       ("model".data, dictGetD original_metadata "model".data (Value.str cfg.default_model)),
       ("workspace".data, Value.str "evaluator".data),
       ("original_task".data, Value.str original_task_name),
       ("created_at".data, Value.str now),
       ("task_type".data, Value.str "evaluation".data)]
    body := evaluator_response }

/-- The subtask written for one next step by `create_next_steps_subtasks`
(orchestrator.py lines 426-446), for step index `i` (0-based). -/
def next_step_subtask (cfg : Config) (nowC now : Str) (original_task_name : Str)
    (original_metadata : Dict) (i : Nat) (step : Json) : NewTask :=
  let cleaned_task_name := stripHashSuffix original_task_name
  { fname := cleaned_task_name ++ "_step".data ++ natRepr (i + 1) ++ '_' :: nowC ++ ".md".data
    metadata :=
      [("status".data, Value.str "pending".data),
       ("model".data, dictGetD original_metadata "model".data (Value.str cfg.default_model)),
       ("workspace".data, dictGetD original_metadata "workspace".data (Value.str cfg.default_workspace)),
       ("original_task".data, Value.str original_task_name),
       ("created_at".data, Value.str now),
       ("task_type".data, Value.str "next_step".data),
       ("step_number".data, Value.int (i + 1))]
    body := jsonToPyStr step }

/-- The `enumerate` loop of `create_next_steps_subtasks` (orchestrator.py
lines 426-446), carrying the current 0-based index. -/
def createNextStepsGo (cfg : Config) (nowC now : Str) (original_task_name : Str)
    (original_metadata : Dict) : Nat → List Json → List NewTask
  | _, [] => []
  | i, step :: rest =>
    next_step_subtask cfg nowC now original_task_name original_metadata i step ::
      createNextStepsGo cfg nowC now original_task_name original_metadata (i + 1) rest

/-- `create_next_steps_subtasks` (orchestrator.py lines 413-448): one new
pending document per entry of the next-steps array, in order. -/
def create_next_steps_subtasks (cfg : Config) (nowC now : Str) (original_task_name : Str)
    (next_steps : List Json) (original_metadata : Dict) : List NewTask :=
  createNextStepsGo cfg nowC now original_task_name original_metadata 0 next_steps

/-- Where the document ends up after one lifecycle pass. -/
inductive FinalLoc where
  | pending
  | completedAs (fname : Str)
  | failedAs (fname : Str)
deriving DecidableEq, Repr

/-- The observable effects of `process_markdown_file` on one document:
inference calls in order (model, prompt, workspace), writes to the source
file in order (metadata, body, appended response), files created in the
pending set, and the final location. -/
structure ProcResult where
  calls : List (Value × Str × Value)
  writes : List (Dict × Str × Option Str)
  subtasks : List NewTask
  loc : FinalLoc
deriving DecidableEq, Repr

/-- `move_to_completed` / `move_to_failed` (orchestrator.py lines 584-670)
final rewrite: stamp `created_at` and the full hash as `task_id`, rewrite
the file, and compute the destination filename with the short hash. -/
def moveRewrite (hash : Str → Str) (now : Str) (fname : Str) (metadata : Dict) (content : Str)
    (response : Option Str) : (Dict × Str × Option Str) × Str :=
  let ids := generate_task_id hash now
  let m1 := dictInsert metadata "created_at".data (Value.str now)
  let m2 := dictInsert m1 "task_id".data (Value.str ids.1)
  ((m2, content, response), stem fname ++ '_' :: ids.2 ++ ".md".data)

/-- The subtask batch spawned on the `complete` path (orchestrator.py lines
548-576), given the evaluator call outcome. -/
def evaluatorSubtasks (cfg : Config) (nowC now : Str) (original_task_name : Str)
    (metadata : Dict) : SubmitResult → List NewTask
  | SubmitResult.err _ => []
  | SubmitResult.ok evaluator_response =>
    match (parse_evaluator_response evaluator_response).1 with
    | none => [create_subtask cfg nowC now original_task_name evaluator_response metadata]
    | some json_data =>
      let acceptance_status :=
        match jsonGet json_data "acceptance_status".data with
        | some (Json.str s) => pyLower s
        | _ => []
      let next_steps :=
        (jsonGet json_data "NEXT STEPS".data).getD
          ((jsonGet json_data "next_steps".data).getD (Json.arr []))
      let stepTasks :=
        if acceptance_status = "no".data then
          match next_steps with
          | Json.arr (s0 :: ss) =>
            create_next_steps_subtasks cfg nowC now original_task_name (s0 :: ss) metadata
          | _ => []
        else []
      stepTasks ++ [create_subtask cfg nowC now original_task_name evaluator_response metadata]

/-- `process_markdown_file` (orchestrator.py lines 450-582) as a pure
state transformer: `submit` abstracts `submit_to_openwebui`, `hash`
abstracts the SHA-256 hex digest, `now`/`nowC` the two timestamp formats,
`fname` the basename of the file and `raw` its text. -/
def process_markdown_file (cfg : Config) (submit : Value → Str → Value → SubmitResult)
    (hash : Str → Str) (now nowC : Str) (fname raw : Str) : ProcResult :=
  let pc := parse_frontmatter raw
  let metadata := pc.1
  let content := pc.2
  let current_status := dictGetD metadata "status".data (Value.str "pending".data)
  if current_status = Value.str "complete".data then
    let mv := moveRewrite hash now fname metadata content none
    ⟨[], [mv.1], [], FinalLoc.completedAs mv.2⟩
  else if current_status = Value.str "failed".data then
    let mv := moveRewrite hash now fname metadata content none
    ⟨[], [mv.1], [], FinalLoc.failedAs mv.2⟩
  else if current_status = Value.str "running".data then
    ⟨[], [], [], FinalLoc.pending⟩
  else
    let content_to_send := strip_acceptance_criteria content
    let model := dictGetD metadata "model".data (Value.str cfg.default_model)
    let workspace := dictGetD metadata "workspace".data (Value.str cfg.default_workspace)
    let criteria := criteriaOf (dictGet metadata "completion_criteria".data)
    let m1 := dictInsert (dictInsert metadata "status".data (Value.str "running".data))
      "last_updated".data (Value.str now)
    let w1 := (m1, content, (none : Option Str))
    match submit model content_to_send workspace with
    | SubmitResult.ok llm_response =>
      let is_complete := check_completion_criteria llm_response criteria
      let m2 :=
        if is_complete then dictInsert m1 "status".data (Value.str "complete".data)
        else dictInsert (dictInsert m1 "status".data (Value.str "incomplete".data))
          "failure_reason".data (Value.str "Completion criteria not met".data)
      let m3 := dictInsert m2 "last_updated".data (Value.str now)
      let w2 := (m3, content, some llm_response)
      if is_complete then
        let original_task_name := stem fname
        let evalResult := submit model llm_response (Value.str "evaluator".data)
        let subtasks := evaluatorSubtasks cfg nowC now original_task_name m3 evalResult
        let mv := moveRewrite hash now fname m3 content (some llm_response)
        ⟨[(model, content_to_send, workspace), (model, llm_response, Value.str "evaluator".data)],
          [w1, w2, mv.1], subtasks, FinalLoc.completedAs mv.2⟩
      else
        ⟨[(model, content_to_send, workspace)], [w1, w2], [], FinalLoc.pending⟩
    | SubmitResult.err log =>
      let m2 := dictInsert (dictInsert m1 "status".data (Value.str "failed".data))
        "failure_reason".data (Value.str "API Request Failed".data)
      let m3 := dictInsert m2 "last_updated".data (Value.str now)
      let response_to_write := format_error_log log
      let w2 := (m3, content, some response_to_write)
      let mv := moveRewrite hash now fname m3 content (some response_to_write)
      ⟨[(model, content_to_send, workspace)], [w1, w2, mv.1],
        [], FinalLoc.failedAs mv.2⟩

/-- The queue scanner `main` (orchestrator.py lines 672-716): with no
loaded configuration nothing is processed; otherwise every `.md` document
of the pending set is fed to the engine. -/
def mainScan (loaded : Option Config) (submit : Value → Str → Value → SubmitResult)
    (hash : Str → Str) (now nowC : Str) (files : List (Str × Str)) : List ProcResult :=
  match loaded with
  | none => []
  | some cfg =>
    (files.filter fun f => List.isSuffixOf ".md".data f.1).map fun f =>
      process_markdown_file cfg submit hash now nowC f.1 f.2

/-! ### Concrete fixtures used by witnesses and counterexamples -/

/-- A concrete validated configuration. -/
def cfg0 : Config :=
  ⟨"http://api".data, "".data, "./tasks".data, "./tasks/pending".data,
    "./tasks/completed".data, "./tasks/failed".data, 300, "llama3".data, "default".data⟩

/-- A concrete digest function standing for SHA-256. -/
def hash0 : Str → Str := fun _ => "0123456789abcdef".data

/-- An inference oracle that always succeeds with a fixed reply. -/
def submitOk : Value → Str → Value → SubmitResult := fun _ _ _ => SubmitResult.ok "done".data

/-- An inference oracle that always fails with a timeout diagnostic. -/
def submitErr : Value → Str → Value → SubmitResult :=
  fun _ _ _ => SubmitResult.err ⟨"API Error".data, [("error_message".data, "timed out".data)]⟩

/-! ### C7: running documents are left completely unmodified -/

/-- C7: for every document whose metadata status is `running`, a lifecycle
pass makes no inference call, performs no write, creates no file, and
leaves the document in the pending set. -/
theorem c7_running_untouched (cfg : Config) (submit : Value → Str → Value → SubmitResult)
    (hash : Str → Str) (now nowC fname raw : Str)
    (h : dictGetD (parse_frontmatter raw).1 "status".data (Value.str "pending".data) =
      Value.str "running".data) :
    process_markdown_file cfg submit hash now nowC fname raw =
      ⟨[], [], [], FinalLoc.pending⟩ := by
  simp only [process_markdown_file]
  rw [h, if_neg (by decide), if_neg (by decide), if_pos rfl]

/-- Witness for C7 at a concrete running document. -/
theorem c7_witness :
    process_markdown_file cfg0 submitOk hash0 "2025".data "2025c".data "task.md".data
      "---\nstatus: \"running\"\n---\n\ndo the thing".data =
      ⟨[], [], [], FinalLoc.pending⟩ :=
  c7_running_untouched cfg0 submitOk hash0 "2025".data "2025c".data "task.md".data
    "---\nstatus: \"running\"\n---\n\ndo the thing".data (by decide)

/-! ### C6: already-complete documents are only reconciled -/

/-- C6: for every document in the pending set already carrying
`status=complete`, a lifecycle pass performs no inference call and only
reconciles the directory: the body is written back unchanged, the metadata
is touched only at the identifier fields `created_at` and `task_id`, no
subtask is created, and the document moves to the completed set under the
original stem with the six-character identifier appended. -/
theorem c6_complete_reconciled (cfg : Config) (submit : Value → Str → Value → SubmitResult)
    (hash : Str → Str) (now nowC fname raw : Str) (m : Dict) (c : Str)
    (hp : parse_frontmatter raw = (m, c))
    (h : dictGetD m "status".data (Value.str "pending".data) = Value.str "complete".data) :
    process_markdown_file cfg submit hash now nowC fname raw =
      ⟨[],
        [(dictInsert (dictInsert m "created_at".data (Value.str now)) "task_id".data
            (Value.str (hash now)), c, none)],
        [],
        FinalLoc.completedAs (stem fname ++ '_' :: (hash now).take 6 ++ ".md".data)⟩ := by
  simp only [process_markdown_file, hp, moveRewrite, generate_task_id]
  rw [h, if_pos rfl]

/-- Witness for C6 at a concrete already-complete document. -/
theorem c6_witness :
    process_markdown_file cfg0 submitOk hash0 "2025".data "2025c".data "task.md".data
      "---\nstatus: \"complete\"\n---\n\nthe body".data =
      ⟨[],
        [([("status".data, Value.str "complete".data),
           ("created_at".data, Value.str "2025".data),
           ("task_id".data, Value.str "0123456789abcdef".data)], "the body".data, none)],
        [],
        FinalLoc.completedAs "task_012345.md".data⟩ :=
  c6_complete_reconciled cfg0 submitOk hash0 "2025".data "2025c".data "task.md".data
    "---\nstatus: \"complete\"\n---\n\nthe body".data
    [("status".data, Value.str "complete".data)] "the body".data (by decide) (by decide)

/-! ### C5: inference failure ends in the failed set -/

/-- C5: for every pending-eligible document whose inference call fails,
the engine stamps `status=failed` and `failure_reason="API Request
Failed"`, persists the formatted failure diagnostics as the response body,
and moves the document into the failed set under the stem with the
appended identifier; exactly one inference call is made and no subtask is
created. -/
theorem c5_api_failure (cfg : Config) (submit : Value → Str → Value → SubmitResult)
    (hash : Str → Str) (now nowC fname raw : Str) (m : Dict) (c : Str) (log : ErrLog)
    (hp : parse_frontmatter raw = (m, c))
    (h1 : dictGetD m "status".data (Value.str "pending".data) ≠ Value.str "complete".data)
    (h2 : dictGetD m "status".data (Value.str "pending".data) ≠ Value.str "failed".data)
    (h3 : dictGetD m "status".data (Value.str "pending".data) ≠ Value.str "running".data)
    (herr : submit (dictGetD m "model".data (Value.str cfg.default_model))
        (strip_acceptance_criteria c)
        (dictGetD m "workspace".data (Value.str cfg.default_workspace)) = SubmitResult.err log) :
    process_markdown_file cfg submit hash now nowC fname raw =
      (let m1 := dictInsert (dictInsert m "status".data (Value.str "running".data))
        "last_updated".data (Value.str now)
      let m3 := dictInsert (dictInsert (dictInsert m1 "status".data (Value.str "failed".data))
        "failure_reason".data (Value.str "API Request Failed".data)) "last_updated".data
        (Value.str now)
      ⟨[(dictGetD m "model".data (Value.str cfg.default_model), strip_acceptance_criteria c,
          dictGetD m "workspace".data (Value.str cfg.default_workspace))],
        [(m1, c, none), (m3, c, some (format_error_log log)),
         (dictInsert (dictInsert m3 "created_at".data (Value.str now)) "task_id".data
            (Value.str (hash now)), c, some (format_error_log log))],
        [],
        FinalLoc.failedAs (stem fname ++ '_' :: (hash now).take 6 ++ ".md".data)⟩) := by
  simp only [process_markdown_file, hp, moveRewrite, generate_task_id]
  rw [if_neg h1, if_neg h2, if_neg h3, herr]

/-- Witness for C5 at a concrete pending document and failing oracle. -/
theorem c5_witness :
    process_markdown_file cfg0 submitErr hash0 "2025".data "2025c".data "task.md".data
      "---\nstatus: \"pending\"\n---\n\nthe body".data =
      (let m1 := dictInsert (dictInsert [("status".data, Value.str "pending".data)]
        "status".data (Value.str "running".data)) "last_updated".data (Value.str "2025".data)
      let m3 := dictInsert (dictInsert (dictInsert m1 "status".data (Value.str "failed".data))
        "failure_reason".data (Value.str "API Request Failed".data)) "last_updated".data
        (Value.str "2025".data)
      ⟨[(Value.str "llama3".data, "the body".data, Value.str "default".data)],
        [(m1, "the body".data, none),
         (m3, "the body".data,
           some (format_error_log ⟨"API Error".data, [("error_message".data, "timed out".data)]⟩)),
         (dictInsert (dictInsert m3 "created_at".data (Value.str "2025".data)) "task_id".data
            (Value.str "0123456789abcdef".data), "the body".data,
           some (format_error_log ⟨"API Error".data, [("error_message".data, "timed out".data)]⟩))],
        [],
        FinalLoc.failedAs "task_012345.md".data⟩) := by
  have h := c5_api_failure cfg0 submitErr hash0 "2025".data "2025c".data "task.md".data
    "---\nstatus: \"pending\"\n---\n\nthe body".data
    [("status".data, Value.str "pending".data)] "the body".data
    ⟨"API Error".data, [("error_message".data, "timed out".data)]⟩
    (by decide) (by decide) (by decide) (by decide) (by decide)
  exact h.trans (by decide)

/-! ### C1: documents with status incomplete are in fact re-processed -/

/-- Counterexample to C1: a concrete pending-set document with
`status=incomplete` is fed back through the full pipeline — the engine
makes an inference call and performs writes, contradicting the claim that
no call and no write happen. -/
theorem c1_counterexample :
    (process_markdown_file cfg0 submitErr hash0 "2025".data "2025c".data "task.md".data
        "---\nstatus: \"incomplete\"\n---\n\nretry me".data).calls.length = 1 ∧
    (process_markdown_file cfg0 submitErr hash0 "2025".data "2025c".data "task.md".data
        "---\nstatus: \"incomplete\"\n---\n\nretry me".data).writes.length = 3 := by decide

/-- C1 amended: a document with `status=incomplete` is re-processed like a
pending one — only `complete`, `failed` and `running` short-circuit — so
the engine immediately issues the inference call on the stripped body and
first writes the running stamp. -/
theorem c1_amended_incomplete_reprocessed (cfg : Config)
    (submit : Value → Str → Value → SubmitResult) (hash : Str → Str)
    (now nowC fname raw : Str) (m : Dict) (c : Str)
    (hp : parse_frontmatter raw = (m, c))
    (hst : dictGetD m "status".data (Value.str "pending".data) =
      Value.str "incomplete".data) :
    (process_markdown_file cfg submit hash now nowC fname raw).calls.head? =
      some (dictGetD m "model".data (Value.str cfg.default_model),
        strip_acceptance_criteria c,
        dictGetD m "workspace".data (Value.str cfg.default_workspace)) ∧
    (process_markdown_file cfg submit hash now nowC fname raw).writes.head? =
      some (dictInsert (dictInsert m "status".data (Value.str "running".data))
        "last_updated".data (Value.str now), c, none) := by
  simp only [process_markdown_file, hp]
  rw [hst, if_neg (by decide), if_neg (by decide), if_neg (by decide)]
  cases hsub : submit (dictGetD m "model".data (Value.str cfg.default_model))
      (strip_acceptance_criteria c)
      (dictGetD m "workspace".data (Value.str cfg.default_workspace)) with
  | ok reply =>
    cases hcc : check_completion_criteria reply
        (criteriaOf (dictGet m "completion_criteria".data)) <;> simp [hcc]
  | err log => simp

/-- Witness for the amended C1 at a concrete incomplete document. -/
theorem c1_amended_witness :
    (process_markdown_file cfg0 submitErr hash0 "2025".data "2025c".data "task.md".data
        "---\nstatus: \"incomplete\"\n---\n\nretry me".data).calls.head? =
      some (Value.str "llama3".data, "retry me".data, Value.str "default".data) := by
  have h := c1_amended_incomplete_reprocessed cfg0 submitErr hash0 "2025".data "2025c".data
    "task.md".data "---\nstatus: \"incomplete\"\n---\n\nretry me".data
    [("status".data, Value.str "incomplete".data)] "retry me".data (by decide) (by decide)
  exact h.1.trans (by decide)

/-! ### C4: criteria evaluation, corrected for Python truthiness -/

/-- Counterexample to C4: the integer criteria value `0` is neither absent,
a string, nor a structured mapping, yet `check_completion_criteria`
accepts the reply (Python falsiness short-circuits before the shape
checks), where the claim demands rejection for any other shape. -/
theorem c4_counterexample :
    check_completion_criteria "hello".data (Criteria.int 0) = true := by decide

/-- C4 amended: falsy criteria (absent, empty string, empty mapping, zero,
false) accept any reply; a nonempty string criteria accepts exactly the
replies containing it case-insensitively; a structured criteria accepts
exactly when every present clause holds; any other truthy shape rejects. -/
theorem c4_amended_characterization (t : Str) (c : Criteria) :
    (criteriaTruthy c = false → check_completion_criteria t c = true) ∧
    (∀ s, c = Criteria.str s → s ≠ [] →
      (check_completion_criteria t c = true ↔ hasOccur (pyLower s) (pyLower t) = true)) ∧
    (∀ co ml, c = Criteria.dict co ml →
      (check_completion_criteria t c = true ↔
        ((∀ s, co = some s → hasOccur (pyLower s) (pyLower t) = true) ∧
         (∀ n, ml = some n → n ≤ t.length)))) ∧
    (∀ n, c = Criteria.int n → n ≠ 0 → check_completion_criteria t c = false) ∧
    (∀ b, c = Criteria.bool b → b = true → check_completion_criteria t c = false) := by
  refine ⟨fun hf => ?_, fun s hc hs => ?_, fun co ml hc => ?_, fun n hc hn => ?_,
    fun b hc hb => ?_⟩
  · simp [check_completion_criteria, hf]
  · subst hc
    have ht : criteriaTruthy (Criteria.str s) = true := by
      simp [criteriaTruthy, List.isEmpty_iff, hs]
    simp [check_completion_criteria, ht]
  · subst hc
    cases co with
    | none =>
      cases ml with
      | none => simp [check_completion_criteria, criteriaTruthy]
      | some n =>
        simp [check_completion_criteria, criteriaTruthy]
    | some s =>
      cases ml with
      | none => simp [check_completion_criteria, criteriaTruthy]
      | some n => simp [check_completion_criteria, criteriaTruthy, and_comm]
  · subst hc
    have ht : criteriaTruthy (Criteria.int n) = true := by
      simp [criteriaTruthy, hn]
    simp [check_completion_criteria, ht]
  · subst hc hb
    simp [check_completion_criteria, criteriaTruthy]

/-- Witness for the amended C4: a structured criteria with both clauses at
a concrete reply. -/
theorem c4_amended_witness :
    check_completion_criteria "hello".data (Criteria.dict (some "ELL".data) (some 4)) = true := by
  have h := ((c4_amended_characterization "hello".data
    (Criteria.dict (some "ELL".data) (some 4))).2.2.1 (some "ELL".data) (some 4) rfl).mpr
  exact h ⟨fun s hs => by cases hs; decide, fun n hn => by cases hn; decide⟩

/-! ### C10: workspace routing of the two subtask kinds -/

/-- C10: every evaluation subtask is created with the fixed workspace
`evaluator` regardless of the source metadata, while every next-step
subtask inherits the source workspace, falling back to the configured
default workspace. -/
theorem c10_subtask_workspaces (cfg : Config) (nowC now origName evalResp : Str)
    (origMeta : Dict) (steps : List Json) :
    dictGet (create_subtask cfg nowC now origName evalResp origMeta).metadata
      "workspace".data = some (Value.str "evaluator".data) ∧
    ∀ t ∈ create_next_steps_subtasks cfg nowC now origName steps origMeta,
      dictGet t.metadata "workspace".data =
        some (dictGetD origMeta "workspace".data (Value.str cfg.default_workspace)) := by
  constructor
  · rfl
  · have key : ∀ (i : Nat) (ss : List Json),
        ∀ t ∈ createNextStepsGo cfg nowC now origName origMeta i ss,
          dictGet t.metadata "workspace".data =
            some (dictGetD origMeta "workspace".data (Value.str cfg.default_workspace)) := by
      intro i ss
      induction ss generalizing i with
      | nil => intro t ht; simp [createNextStepsGo] at ht
      | cons s rest ih =>
        intro t ht
        rcases List.mem_cons.mp ht with h | h
        · subst h; rfl
        · exact ih (i + 1) t h
    exact key 0 steps

/-- Witness for C10 at a concrete metadata mapping with an explicit
workspace and one next step. -/
theorem c10_witness :
    dictGet (create_subtask cfg0 "2025c".data "2025".data "task".data "verdict".data
        [("workspace".data, Value.str "wsx".data)]).metadata "workspace".data =
      some (Value.str "evaluator".data) ∧
    dictGet (next_step_subtask cfg0 "2025c".data "2025".data "task".data
        [("workspace".data, Value.str "wsx".data)] 0 (Json.str "a".data)).metadata
        "workspace".data = some (Value.str "wsx".data) := by
  have h := c10_subtask_workspaces cfg0 "2025c".data "2025".data "task".data "verdict".data
    [("workspace".data, Value.str "wsx".data)] [Json.str "a".data]
  refine ⟨h.1, ?_⟩
  have h2 := h.2 (next_step_subtask cfg0 "2025c".data "2025".data "task".data
    [("workspace".data, Value.str "wsx".data)] 0 (Json.str "a".data))
    (by simp [create_next_steps_subtasks, createNextStepsGo])
  exact h2.trans (by decide)

/-! ### C9: configuration validation, corrected for built-in defaults -/

/-- A config module that provides only the endpoint URL and the default
workspace, leaving every other element of the configuration surface
absent. -/
def cmMinimal : ConfigModule :=
  ⟨some (some "http://u".data), none, none, none, none, none, none, none,
    some (some "ws".data)⟩

/-- Counterexample to C9: with the credential, default model, directory
paths and request timeout all missing, configuration loading still
succeeds (the built-in defaults fill them in), so the engine does start,
contradicting the claim that any missing element aborts startup. -/
theorem c9_counterexample :
    load_config cmMinimal =
      some ⟨"http://u".data, "".data, "./tasks".data, "./tasks/pending".data,
        "./tasks/completed".data, "./tasks/failed".data, 300, "llama3".data, "ws".data⟩ := by
  rfl

/-- C9 amended: configuration loading fails exactly when some resolved
entry is Python `None`; only the endpoint URL and the default workspace
have no built-in default, so only their absence (or an explicit `None` for
any entry) refuses startup, and with no loaded configuration the scanner
touches no document. -/
theorem c9_amended_validation (m : ConfigModule)
    (submit : Value → Str → Value → SubmitResult) (hash : Str → Str)
    (now nowC : Str) (files : List (Str × Str)) :
    (load_config m = none ↔
      (getattrD m.API_URL none = none ∨
       getattrD m.API_KEY (some "".data) = none ∨
       getattrD m.TASKS_DIRECTORY (some "./tasks".data) = none ∨
       getattrD m.PENDING_DIRECTORY (some "./tasks/pending".data) = none ∨
       getattrD m.COMPLETED_DIRECTORY (some "./tasks/completed".data) = none ∨
       getattrD m.FAILED_DIRECTORY (some "./tasks/failed".data) = none ∨
       getattrD m.REQUEST_TIMEOUT (some 300) = none ∨
       getattrD m.DEFAULT_MODEL (some "llama3".data) = none ∨
       getattrD m.DEFAULT_WORKSPACE none = none)) ∧
    mainScan none submit hash now nowC files = [] := by
  constructor
  · simp only [load_config]
    rcases getattrD m.API_URL none with _ | u <;>
      rcases getattrD m.API_KEY (some "".data) with _ | k <;>
      rcases getattrD m.TASKS_DIRECTORY (some "./tasks".data) with _ | t <;>
      rcases getattrD m.PENDING_DIRECTORY (some "./tasks/pending".data) with _ | p <;>
      rcases getattrD m.COMPLETED_DIRECTORY (some "./tasks/completed".data) with _ | cd <;>
      rcases getattrD m.FAILED_DIRECTORY (some "./tasks/failed".data) with _ | fd <;>
      rcases getattrD m.REQUEST_TIMEOUT (some 300) with _ | rt <;>
      rcases getattrD m.DEFAULT_MODEL (some "llama3".data) with _ | dm <;>
      rcases getattrD m.DEFAULT_WORKSPACE none with _ | dw <;>
      simp
  · rfl

/-! ### C8: the evaluator-response parser tries three strategies in order -/

/-- Strategy (a) of the specification: parse the entire text. -/
def stratWholeText (t : Str) : Option Json := jsonLoads t

/-- Strategy (b) of the specification: locate a fenced block tagged as
structured data and parse its interior. -/
def stratFencedBlock (t : Str) : Option Json :=
  match splitFirst "```json".data t with
  | some (_, rest) =>
    (match splitFirst "```".data rest with
      | some (mid, _) => jsonLoads (pyStrip mid)
      | none => none)
  | none => none

/-- Strategy (c) of the specification: parse the span from the first
opening brace to the last closing brace. -/
def stratBraceSpan (t : Str) : Option Json :=
  match List.findIdx? (fun c => c = '{') t with
  | some brace_start =>
    (match List.findIdx? (fun c => c = '}') t.reverse with
      | some ri =>
        let brace_end := t.length - 1 - ri
        if brace_start < brace_end then
          jsonLoads ((t.drop brace_start).take (brace_end + 1 - brace_start))
        else none
      | none => none)
  | none => none

/-- The source parser agrees with the ordered three-strategy chain. -/
theorem parse_evaluator_response_eq_strategies (t : Str) :
    parse_evaluator_response t =
      match stratWholeText t with
      | some j => (some j, none)
      | none =>
        match stratFencedBlock t with
        | some j => (some j, none)
        | none =>
          match stratBraceSpan t with
          | some j => (some j, none)
          | none => (none, some "Could not parse JSON from evaluator response".data) := rfl

/-- C8: `parse_evaluator_response` attempts exactly the three strategies in
order — whole text, fenced-block interior, first-to-last brace span —
returns the first successful parse, and when all three fail returns no
partial result together with the fixed failure message. -/
theorem c8_strategy_order (t : Str) :
    ((stratWholeText t).isSome →
      parse_evaluator_response t = (stratWholeText t, none)) ∧
    (stratWholeText t = none → (stratFencedBlock t).isSome →
      parse_evaluator_response t = (stratFencedBlock t, none)) ∧
    (stratWholeText t = none → stratFencedBlock t = none → (stratBraceSpan t).isSome →
      parse_evaluator_response t = (stratBraceSpan t, none)) ∧
    (stratWholeText t = none → stratFencedBlock t = none → stratBraceSpan t = none →
      parse_evaluator_response t =
        (none, some "Could not parse JSON from evaluator response".data)) := by
  have he := parse_evaluator_response_eq_strategies t
  refine ⟨fun h1 => ?_, fun h1 h2 => ?_, fun h1 h2 h3 => ?_, fun h1 h2 h3 => ?_⟩
  · rcases hw : stratWholeText t with _ | j
    · rw [hw] at h1; simp at h1
    · simp [he, hw]
  · rcases hf : stratFencedBlock t with _ | j
    · rw [hf] at h2; simp at h2
    · simp [he, h1, hf]
  · rcases hb : stratBraceSpan t with _ | j
    · rw [hb] at h3; simp at h3
    · simp [he, h1, h2, hb]
  · simp [he, h1, h2, h3]

/-- Witness for C8 at the specification example: the whole-text and
fenced-block strategies fail, the brace-span strategy succeeds, and the
parser returns its result. -/
theorem c8_witness :
    parse_evaluator_response
        "prefix \x7b\"acceptance_status\":\"no\",\"next_steps\":[\"a\",\"b\"]\x7d suffix".data =
      (stratBraceSpan
        "prefix \x7b\"acceptance_status\":\"no\",\"next_steps\":[\"a\",\"b\"]\x7d suffix".data,
        none) :=
  (c8_strategy_order
    "prefix \x7b\"acceptance_status\":\"no\",\"next_steps\":[\"a\",\"b\"]\x7d suffix".data).2.2.1
    (by rfl) (by rfl) (by rfl)

/-! ### C3: verdict "no" spawns one subtask per step plus one evaluation subtask -/

/-- Length of the next-step subtask batch. -/
theorem createNextStepsGo_length (cfg : Config) (nowC now name : Str) (meta : Dict) :
    ∀ (ss : List Json) (i : Nat),
      (createNextStepsGo cfg nowC now name meta i ss).length = ss.length := by
  intro ss
  induction ss with
  | nil => intro i; rfl
  | cons s rest ih => intro i; simp [createNextStepsGo, ih]

/-- Indexing into the next-step subtask batch. -/
theorem createNextStepsGo_get? (cfg : Config) (nowC now name : Str) (meta : Dict) :
    ∀ (ss : List Json) (i j : Nat),
      (createNextStepsGo cfg nowC now name meta i ss).get? j =
        (ss.get? j).map fun s => next_step_subtask cfg nowC now name meta (i + j) s := by
  intro ss
  induction ss with
  | nil => intro i j; cases j <;> rfl
  | cons s rest ih =>
    intro i j
    cases j with
    | zero => rfl
    | succ j2 =>
      have h := ih (i + 1) j2
      simp only [createNextStepsGo, List.get?_cons_succ, h]
      rw [show i + 1 + j2 = i + (j2 + 1) from by omega]

/-- C3: when the reply satisfies the criteria and the evaluator verdict
parses with `acceptance_status = "no"` and a non-empty step list, the
engine creates exactly one pending next-step document per step (with a
step number and an original-task back-reference) plus exactly one pending
evaluation document whose body is the full raw evaluator reply. -/
theorem c3_rejected_verdict_spawns (cfg : Config)
    (submit : Value → Str → Value → SubmitResult) (hash : Str → Str)
    (now nowC fname raw : Str) (m : Dict) (c reply evalReply : Str) (j : Json)
    (steps : List Json) (accs : Str)
    (hp : parse_frontmatter raw = (m, c))
    (h1 : dictGetD m "status".data (Value.str "pending".data) ≠ Value.str "complete".data)
    (h2 : dictGetD m "status".data (Value.str "pending".data) ≠ Value.str "failed".data)
    (h3 : dictGetD m "status".data (Value.str "pending".data) ≠ Value.str "running".data)
    (hok : submit (dictGetD m "model".data (Value.str cfg.default_model))
        (strip_acceptance_criteria c)
        (dictGetD m "workspace".data (Value.str cfg.default_workspace)) = SubmitResult.ok reply)
    (hcrit : check_completion_criteria reply
        (criteriaOf (dictGet m "completion_criteria".data)) = true)
    (heval : submit (dictGetD m "model".data (Value.str cfg.default_model)) reply
        (Value.str "evaluator".data) = SubmitResult.ok evalReply)
    (hjson : (parse_evaluator_response evalReply).1 = some j)
    (hacc : jsonGet j "acceptance_status".data = some (Json.str accs))
    (haccno : pyLower accs = "no".data)
    (hsteps : (jsonGet j "NEXT STEPS".data).getD
        ((jsonGet j "next_steps".data).getD (Json.arr [])) = Json.arr steps)
    (hne : steps ≠ []) :
    (process_markdown_file cfg submit hash now nowC fname raw).subtasks.length =
        steps.length + 1 ∧
    (∀ i, i < steps.length →
      ∃ t, (process_markdown_file cfg submit hash now nowC fname raw).subtasks.get? i =
          some t ∧
        dictGet t.metadata "status".data = some (Value.str "pending".data) ∧
        dictGet t.metadata "task_type".data = some (Value.str "next_step".data) ∧
        dictGet t.metadata "step_number".data = some (Value.int (i + 1)) ∧
        dictGet t.metadata "original_task".data = some (Value.str (stem fname))) ∧
    (∃ t, (process_markdown_file cfg submit hash now nowC fname raw).subtasks.get?
          steps.length = some t ∧
        dictGet t.metadata "status".data = some (Value.str "pending".data) ∧
        dictGet t.metadata "task_type".data = some (Value.str "evaluation".data) ∧
        dictGet t.metadata "original_task".data = some (Value.str (stem fname)) ∧
        t.body = evalReply) := by
  rcases List.exists_cons_of_ne_nil hne with ⟨s0, ss, hss⟩
  subst hss
  have hsub : (process_markdown_file cfg submit hash now nowC fname raw).subtasks =
      createNextStepsGo cfg nowC now (stem fname)
        (dictInsert (dictInsert (dictInsert (dictInsert m "status".data
          (Value.str "running".data)) "last_updated".data (Value.str now)) "status".data
          (Value.str "complete".data)) "last_updated".data (Value.str now)) 0 (s0 :: ss) ++
      [create_subtask cfg nowC now (stem fname) evalReply
        (dictInsert (dictInsert (dictInsert (dictInsert m "status".data
          (Value.str "running".data)) "last_updated".data (Value.str now)) "status".data
          (Value.str "complete".data)) "last_updated".data (Value.str now))] := by
    simp only [process_markdown_file, hp]
    rw [if_neg h1, if_neg h2, if_neg h3]
    simp only [hok]
    rw [hcrit, if_pos rfl]
    simp only [heval, evaluatorSubtasks, hjson, hacc, haccno, hsteps]
    simp only [if_true, create_next_steps_subtasks]
  refine ⟨?_, ?_, ?_⟩
  · rw [hsub]
    simp [createNextStepsGo_length]
  · intro i hi
    rw [hsub, List.get?_append
      (by rw [createNextStepsGo_length]; exact hi)]
    rw [createNextStepsGo_get?]
    rw [List.get?_eq_get hi]
    refine ⟨_, rfl, ?_, ?_, ?_, ?_⟩ <;> simp [next_step_subtask, dictGet, Nat.zero_add]
  · rw [hsub, List.get?_append_right (by rw [createNextStepsGo_length])]
    rw [createNextStepsGo_length]
    simp only [Nat.sub_self, List.get?]
    exact ⟨_, rfl, rfl, rfl, rfl, rfl⟩

/-- The evaluator reply of the specification example. -/
def exampleEvalReply : Str :=
  "prefix \x7b\"acceptance_status\":\"no\",\"next_steps\":[\"a\",\"b\"]\x7d suffix".data

/-- The parsed verdict of the specification example. -/
def exampleVerdict : Json :=
  Json.obj [("acceptance_status".data, Json.str "no".data),
    ("next_steps".data, Json.arr [Json.str "a".data, Json.str "b".data])]

/-- An oracle that answers the primary call with a fixed reply and the
evaluator call with the specification example. -/
def submitExample : Value → Str → Value → SubmitResult :=
  fun _ _ w =>
    if w = Value.str "evaluator".data then SubmitResult.ok exampleEvalReply
    else SubmitResult.ok "done".data

/-- Witness for C3: the example reply with two next steps yields three new
pending documents. -/
theorem c3_witness :
    (process_markdown_file cfg0 submitExample hash0 "2025".data "2025c".data "task.md".data
        "---\nstatus: \"pending\"\n---\n\nwrite it".data).subtasks.length = 3 := by
  have h := c3_rejected_verdict_spawns cfg0 submitExample hash0 "2025".data "2025c".data
    "task.md".data "---\nstatus: \"pending\"\n---\n\nwrite it".data
    [("status".data, Value.str "pending".data)] "write it".data "done".data
    exampleEvalReply exampleVerdict [Json.str "a".data, Json.str "b".data] "no".data
    (by decide) (by decide) (by decide) (by decide) (by rfl) (by decide) (by rfl) (by rfl)
    (by rfl) (by decide) (by rfl) (List.cons_ne_nil _ _)
  exact h.1.trans rfl

/-! ### C2: codec round-trip.  Supporting lemmas on stripping -/

theorem length_dropWhile_le (p : Char → Bool) (l : Str) :
    (l.dropWhile p).length ≤ l.length := by
  induction l with
  | nil => simp [List.dropWhile]
  | cons a t ih => by_cases h : p a <;> simp [List.dropWhile, h] <;> omega

theorem dropWhile_length_eq (p : Char → Bool) (l : Str)
    (h : (l.dropWhile p).length = l.length) : l.dropWhile p = l := by
  induction l with
  | nil => rfl
  | cons a t ih =>
    by_cases ha : p a
    · exfalso
      rw [List.dropWhile_cons_of_pos ha] at h
      have := length_dropWhile_le p t
      simp at h
      omega
    · exact List.dropWhile_cons_of_neg ha

theorem stripL_cons_nonspace (c : Char) (s : Str) (h : pySpace c = false) :
    stripL (c :: s) = c :: s := by
  have hb : ¬ pySpace c = true := by simp [h]
  simp [stripL, List.dropWhile_cons_of_neg hb]

theorem pySpace_false_of_stripL_cons (c : Char) (s : Str)
    (h : stripL (c :: s) = c :: s) : pySpace c = false := by
  by_cases hp : pySpace c
  · exfalso
    rw [stripL, List.dropWhile_cons_of_pos hp] at h
    have h2 := length_dropWhile_le pySpace s
    have h3 := congrArg List.length h
    simp at h3
    omega
  · simpa using hp

theorem stripL_cons_space (c : Char) (s : Str) (h : pySpace c = true) :
    stripL (c :: s) = stripL s := by
  simp [stripL, List.dropWhile_cons_of_pos h]

theorem stripR_concat_nonspace (s : Str) (c : Char) (h : pySpace c = false) :
    stripR (s ++ [c]) = s ++ [c] := by
  have hb : ¬ pySpace c = true := by simp [h]
  have hr : (s ++ [c]).reverse = c :: s.reverse := by simp
  rw [stripR, hr, List.dropWhile_cons_of_neg hb]
  simp

theorem pySpace_false_of_stripR_concat (s : Str) (c : Char)
    (h : stripR (s ++ [c]) = s ++ [c]) : pySpace c = false := by
  by_cases hp : pySpace c
  · exfalso
    have h2 := congrArg List.reverse h
    rw [stripR, List.reverse_reverse] at h2
    have hr : (s ++ [c]).reverse = c :: s.reverse := by simp
    rw [hr, List.dropWhile_cons_of_pos hp] at h2
    have h3 := congrArg List.length h2
    have h4 := length_dropWhile_le pySpace s.reverse
    simp [List.length_reverse] at h3 h4
    omega
  · simpa using hp

theorem stripR_concat_space (s : Str) (c : Char) (h : pySpace c = true) :
    stripR (s ++ [c]) = stripR s := by
  have hr : (s ++ [c]).reverse = c :: s.reverse := by simp
  rw [stripR, hr, List.dropWhile_cons_of_pos h, stripR]

theorem length_stripR_le (s : Str) : (stripR s).length ≤ s.length := by
  simpa [stripR] using length_dropWhile_le pySpace s.reverse

theorem pyStrip_eq_self_split (s : Str) (h : pyStrip s = s) :
    stripL s = s ∧ stripR s = s := by
  have h1 : (stripL s).length ≤ s.length := length_dropWhile_le pySpace s
  have h2 : (stripR (stripL s)).length ≤ (stripL s).length := length_stripR_le (stripL s)
  have h3 : (pyStrip s).length = s.length := by rw [h]
  have h4 : (stripL s).length = s.length := by
    simp only [pyStrip] at h3
    omega
  have h5 : stripL s = s := dropWhile_length_eq pySpace s h4
  refine ⟨h5, ?_⟩
  simp only [pyStrip, h5] at h
  exact h

theorem stripL_append_of_head (x y : Str) (hx : stripL x = x) (hne : x ≠ []) :
    stripL (x ++ y) = x ++ y := by
  cases x with
  | nil => exact absurd rfl hne
  | cons a t =>
    have ha := pySpace_false_of_stripL_cons a t hx
    rw [List.cons_append]
    exact stripL_cons_nonspace a (t ++ y) ha

theorem stripR_append_of_last (x y : Str) (hy : stripR y = y) (hne : y ≠ []) :
    stripR (x ++ y) = x ++ y := by
  rcases List.eq_nil_or_concat y with h | ⟨ys, y0, rfl⟩
  · exact absurd h hne
  · rw [List.concat_eq_append] at hy
    have h0 := pySpace_false_of_stripR_concat ys y0 hy
    rw [List.concat_eq_append, show x ++ (ys ++ [y0]) = (x ++ ys) ++ [y0] from by simp]
    exact stripR_concat_nonspace (x ++ ys) y0 h0

theorem pyStrip_of_both (s : Str) (h1 : stripL s = s) (h2 : stripR s = s) :
    pyStrip s = s := by
  rw [pyStrip, h1, h2]

theorem pyStrip_cons_space (c : Char) (s : Str) (h : pySpace c = true) :
    pyStrip (c :: s) = pyStrip s := by
  simp only [pyStrip, stripL_cons_space c s h]

theorem pyStrip_wrap (F : Str) (h1 : stripL F = F) (h2 : stripR F = F) :
    pyStrip ('\n' :: F ++ ['\n']) = F := by
  cases F with
  | nil => decide
  | cons f fs =>
    rw [show ('\n' :: (f :: fs) ++ ['\n']) = '\n' :: ((f :: fs) ++ ['\n']) from rfl]
    rw [pyStrip_cons_space _ _ (by decide)]
    rw [pyStrip, stripL_append_of_head _ _ h1 (by simp)]
    rw [stripR_concat_space _ _ (by decide), h2]

/-! ### C2 support: decimal printing round-trips through the parser -/

theorem digit_toLower (c : Char) (h : c.isDigit = true) : c.toLower = c := by
  simp only [Char.isDigit, Bool.and_eq_true, decide_eq_true_eq] at h
  simp only [Char.toLower, Char.toNat]
  rw [if_neg]
  rintro ⟨h1, _⟩
  have h3 : c.val.toNat ≤ 57 := UInt32.toNat_le_of_le (by decide) h.2
  omega

theorem digit_ne (c x : Char) (h : c.isDigit = true) (hx : x.isDigit = false) :
    (c = x) = False := by
  simp only [eq_iff_iff, iff_false]
  intro he
  subst he
  rw [h] at hx
  cases hx

theorem digit_not_space (c : Char) (h : c.isDigit = true) : pySpace c = false := by
  simp [pySpace, digit_ne c ' ' h (by decide), digit_ne c '\t' h (by decide),
    digit_ne c '\n' h (by decide), digit_ne c '\r' h (by decide),
    digit_ne c '\x0b' h (by decide), digit_ne c '\x0c' h (by decide)]

theorem pyDecimal_append_digit (xs : Str) (c : Char) :
    pyDecimal (xs ++ [c]) = pyDecimal xs * 10 + (c.toNat - 48) := by
  simp [pyDecimal, List.foldl_append]

theorem char_digit_val (r : Nat) (h : r < 10) :
    (Char.ofNat (48 + r)).toNat = 48 + r ∧ (Char.ofNat (48 + r)).isDigit = true := by
  interval_cases r <;> exact ⟨rfl, rfl⟩

theorem natReprAux_spec : ∀ (f n : Nat), n < f →
    pyDecimal (natReprAux f n) = n ∧ (natReprAux f n).all Char.isDigit = true ∧
      (n ≠ 0 → natReprAux f n ≠ []) := by
  intro f
  induction f with
  | zero => intro n h; omega
  | succ f ih =>
    intro n h
    cases n with
    | zero => exact ⟨rfl, rfl, fun hz => absurd rfl hz⟩
    | succ n2 =>
      have hd : (n2 + 1) / 10 < f := by
        have := Nat.div_lt_self (Nat.succ_pos n2) (by omega : 1 < 10)
        omega
      obtain ⟨ih1, ih2, _⟩ := ih ((n2 + 1) / 10) hd
      have hr : (n2 + 1) % 10 < 10 := Nat.mod_lt _ (by omega)
      obtain ⟨hv, hdg⟩ := char_digit_val _ hr
      refine ⟨?_, ?_, ?_⟩
      · simp only [natReprAux, pyDecimal_append_digit, ih1, hv]
        omega
      · simp only [natReprAux, List.all_append, ih2, Bool.true_and, List.all_cons,
          List.all_nil, hdg, Bool.and_true]
      · intro _
        simp [natReprAux]

theorem natRepr_spec (n : Nat) :
    pyDecimal (natRepr n) = n ∧ (natRepr n).all Char.isDigit = true ∧ natRepr n ≠ [] := by
  by_cases h : n = 0
  · subst h
    exact ⟨rfl, rfl, by decide⟩
  · obtain ⟨h1, h2, h3⟩ := natReprAux_spec (n + 1) n (by omega)
    simp only [natRepr, if_neg h]
    exact ⟨h1, h2, h3 h⟩

/-! ### C2 support: first-occurrence splitting around the delimiters -/

/-- The frontmatter delimiter. -/
def dashes : Str := ['-', '-', '-']

theorem isPrefixOf_self_append (l t : Str) : l.isPrefixOf (l ++ t) = true := by
  induction l with
  | nil => simp [List.isPrefixOf]
  | cons a as ih => simp [List.isPrefixOf, ih]

theorem splitFirst_self (sep t : Str) (hne : sep ≠ []) :
    splitFirst sep (sep ++ t) = some ([], t) := by
  cases sep with
  | nil => exact absurd rfl hne
  | cons c cs =>
    rw [show (c :: cs) ++ t = c :: (cs ++ t) from rfl]
    rw [splitFirst]
    rw [show c :: (cs ++ t) = (c :: cs) ++ t from rfl, isPrefixOf_self_append]
    simp [List.drop_left]

theorem hasOccur_intro (sep x y : Str) (hne : sep ≠ []) :
    hasOccur sep (x ++ sep ++ y) = true := by
  induction x with
  | nil =>
    cases sep with
    | nil => exact absurd rfl hne
    | cons c cs =>
      rw [show [] ++ (c :: cs) ++ y = c :: (cs ++ y) from rfl, hasOccur]
      rw [show c :: (cs ++ y) = (c :: cs) ++ y from rfl, isPrefixOf_self_append]
      rfl
  | cons a x2 ih =>
    rw [show (a :: x2) ++ sep ++ y = a :: (x2 ++ sep ++ y) from by simp, hasOccur, ih]
    simp

theorem hasOccur_cons_false (sep : Str) (c : Char) (s : Str)
    (h : hasOccur sep (c :: s) = false) :
    sep.isPrefixOf (c :: s) = false ∧ hasOccur sep s = false := by
  rw [hasOccur, Bool.or_eq_false_iff] at h
  exact h

theorem hasOccur_dashes_cons (c : Char) (s : Str) (hc : c ≠ '-')
    (h : hasOccur dashes s = false) : hasOccur dashes (c :: s) = false := by
  rw [hasOccur, h, Bool.or_false]
  simp [dashes, List.isPrefixOf, beq_iff_eq, Ne.symm hc]

theorem hasOccur_dashes_append_cons (x : Str) (c : Char) (y : Str)
    (hx : hasOccur dashes x = false) (hc : c ≠ '-')
    (hy : hasOccur dashes y = false) : hasOccur dashes (x ++ c :: y) = false := by
  induction x with
  | nil => simpa using hasOccur_dashes_cons c y hc hy
  | cons a x2 ih =>
    obtain ⟨hx1, hx2⟩ := hasOccur_cons_false dashes a x2 hx
    rw [show (a :: x2) ++ c :: y = a :: (x2 ++ c :: y) from rfl, hasOccur, ih hx2,
      Bool.or_false]
    by_cases ha : a = '-'
    · subst ha
      cases x2 with
      | nil => simp [dashes, List.isPrefixOf, beq_iff_eq, Ne.symm hc]
      | cons b x3 =>
        by_cases hb : b = '-'
        · subst hb
          cases x3 with
          | nil => simp [dashes, List.isPrefixOf, beq_iff_eq, Ne.symm hc]
          | cons d x4 =>
            by_cases hd : d = '-'
            · subst hd
              exfalso
              simp [dashes, List.isPrefixOf] at hx1
            · simp [dashes, List.isPrefixOf, beq_iff_eq, Ne.symm hd]
        · simp [dashes, List.isPrefixOf, beq_iff_eq, Ne.symm hb]
    · simp [dashes, List.isPrefixOf, beq_iff_eq, Ne.symm ha]

theorem hasOccur_dashes_joinChar (lines : List Str)
    (h : ∀ l ∈ lines, hasOccur dashes l = false) :
    hasOccur dashes (joinChar '\n' lines) = false := by
  induction lines with
  | nil => rfl
  | cons l ls ih =>
    cases ls with
    | nil => exact h l (by simp)
    | cons l2 ls2 =>
      rw [joinChar]
      exact hasOccur_dashes_append_cons l '\n' (joinChar '\n' (l2 :: ls2))
        (h l (by simp)) (by decide) (ih (fun q hq => h q (by simp [hq])))

theorem hasOccur_dashes_of_digits (s : Str) (h : s.all Char.isDigit = true) :
    hasOccur dashes s = false := by
  induction s with
  | nil => rfl
  | cons c t ih =>
    simp only [List.all_cons, Bool.and_eq_true] at h
    exact hasOccur_dashes_cons c t
      (fun he => by rw [digit_ne c '-' h.1 (by decide)] at he; exact he) (ih h.2)

theorem splitFirst_dashes_mid : ∀ (x y : Str), hasOccur dashes x = false →
    x.getLast? ≠ some '-' → splitFirst dashes (x ++ dashes ++ y) = some (x, y) := by
  intro x
  induction x with
  | nil =>
    intro y _ _
    simpa using splitFirst_self dashes y (by decide)
  | cons c x2 ih =>
    intro y hx hlast
    obtain ⟨hx1, hx2⟩ := hasOccur_cons_false dashes c x2 hx
    have hpf : dashes.isPrefixOf (c :: (x2 ++ dashes ++ y)) = false := by
      by_cases hc : c = '-'
      · subst hc
        cases x2 with
        | nil => exact absurd (show ('-' :: ([] : Str)).getLast? = some '-' from rfl) hlast
        | cons b x3 =>
          by_cases hb : b = '-'
          · subst hb
            cases x3 with
            | nil =>
              exact absurd (show ('-' :: '-' :: ([] : Str)).getLast? = some '-' from rfl) hlast
            | cons d x4 =>
              by_cases hd : d = '-'
              · subst hd
                exfalso
                simp [dashes, List.isPrefixOf] at hx1
              · simp [dashes, List.isPrefixOf, beq_iff_eq, Ne.symm hd]
          · simp [dashes, List.isPrefixOf, beq_iff_eq, Ne.symm hb]
      · simp [dashes, List.isPrefixOf, beq_iff_eq, Ne.symm hc]
    have hrec := ih y hx2 (by
      cases x2 with
      | nil => simp
      | cons b x3 => simpa [List.getLast?_cons_cons] using hlast)
    have hrec2 : splitFirst dashes (x2 ++ (dashes ++ y)) = some (x2, y) := by
      rw [← List.append_assoc]
      exact hrec
    rw [show (c :: x2) ++ dashes ++ y = c :: (x2 ++ dashes ++ y) from by simp,
      splitFirst, hpf]
    simp [hrec2]

/-! ### C2 support: well-formed keys and values, and per-line parsing -/

/-- One serialized frontmatter line of `write_frontmatter`. -/
def lineOf (p : Str × Value) : Str := p.1 ++ ':' :: ' ' :: valueRepr p.2

/-- A key the codec round-trips: trimmed, lowercase, and free of the colon
separator, line breaks and the `---` delimiter. -/
def goodKey (k : Str) : Bool :=
  decide (pyStrip k = k) && decide (pyLower k = k) && !(k.contains ':') &&
    !(k.contains '\n') && !(hasOccur dashes k)

/-- A value the codec round-trips: string contents free of line breaks and
of the `---` delimiter (booleans and integers always round-trip). -/
def goodVal : Value → Bool
  | Value.str s => !(s.contains '\n') && !(hasOccur dashes s)
  | _ => true

/-- The coercion `parse_frontmatter` applies to a decoded scalar: strings
that look boolean or numeric come back as booleans or integers. -/
def coerceVal : Value → Value
  | Value.str s =>
    if pyLower s = "true".data then Value.bool true
    else if pyLower s = "false".data then Value.bool false
    else if pyIsDigit s then Value.int (pyDecimal s)
    else Value.str s
  | v => v

theorem goodKey_parts (k : Str) (h : goodKey k = true) :
    pyStrip k = k ∧ pyLower k = k ∧ k.contains ':' = false ∧ k.contains '\n' = false ∧
      hasOccur dashes k = false := by
  simp only [goodKey, Bool.and_eq_true, Bool.not_eq_true', decide_eq_true_eq] at h
  exact ⟨h.1.1.1.1, h.1.1.1.2, h.1.1.2, h.1.2, h.2⟩

theorem pyLower_digits (s : Str) (h : s.all Char.isDigit = true) : pyLower s = s := by
  induction s with
  | nil => rfl
  | cons c t ih =>
    simp only [List.all_cons, Bool.and_eq_true] at h
    simp [pyLower, List.map_cons, digit_toLower c h.1]
    simpa [pyLower] using ih h.2

theorem valueRepr_concat (v : Value) :
    ∃ rs r0, valueRepr v = rs ++ [r0] ∧ pySpace r0 = false := by
  cases v with
  | str s => exact ⟨'"' :: s, '"', by simp [valueRepr], by decide⟩
  | bool b =>
    cases b
    · exact ⟨"Fals".data, 'e', by decide, by decide⟩
    · exact ⟨"Tru".data, 'e', by decide, by decide⟩
  | int n =>
    obtain ⟨_, hall, hne⟩ := natRepr_spec n
    rcases List.eq_nil_or_concat (natRepr n) with h | ⟨rs, r0, hc⟩
    · exact absurd h hne
    · rw [List.concat_eq_append] at hc
      refine ⟨rs, r0, hc, ?_⟩
      rw [hc, List.all_append] at hall
      simp only [Bool.and_eq_true, List.all_cons, List.all_nil, Bool.and_true] at hall
      exact digit_not_space r0 hall.2

theorem valueRepr_head (v : Value) :
    ∃ r0 rt, valueRepr v = r0 :: rt ∧ pySpace r0 = false := by
  cases v with
  | str s => exact ⟨'"', s ++ ['"'], rfl, by decide⟩
  | bool b =>
    cases b
    · exact ⟨'F', "alse".data, rfl, by decide⟩
    · exact ⟨'T', "rue".data, rfl, by decide⟩
  | int n =>
    obtain ⟨_, hall, hne⟩ := natRepr_spec n
    cases hn : natRepr n with
    | nil => exact absurd hn hne
    | cons d dt =>
      rw [hn] at hall
      simp only [List.all_cons, Bool.and_eq_true] at hall
      exact ⟨d, dt, by simp [valueRepr, hn], digit_not_space d hall.1⟩

theorem stripL_valueRepr (v : Value) : stripL (valueRepr v) = valueRepr v := by
  obtain ⟨r0, rt, he, hr⟩ := valueRepr_head v
  rw [he]
  exact stripL_cons_nonspace r0 rt hr

theorem stripR_valueRepr (v : Value) : stripR (valueRepr v) = valueRepr v := by
  obtain ⟨rs, r0, he, hr⟩ := valueRepr_concat v
  rw [he]
  exact stripR_concat_nonspace rs r0 hr

theorem pyStrip_space_valueRepr (v : Value) :
    pyStrip (' ' :: valueRepr v) = valueRepr v := by
  rw [pyStrip_cons_space _ _ (by decide)]
  exact pyStrip_of_both _ (stripL_valueRepr v) (stripR_valueRepr v)

theorem lineOf_ne_nil (k : Str) (v : Value) : lineOf (k, v) ≠ [] := by
  cases k <;> simp [lineOf]

theorem stripL_lineOf (k : Str) (v : Value) (hk : goodKey k = true) :
    stripL (lineOf (k, v)) = lineOf (k, v) := by
  obtain ⟨hks, _, _, _, _⟩ := goodKey_parts k hk
  cases k with
  | nil => exact stripL_cons_nonspace ':' (' ' :: valueRepr v) (by decide)
  | cons k0 kt =>
    have hkl := (pyStrip_eq_self_split _ hks).1
    exact stripL_append_of_head (k0 :: kt) _ hkl (by simp)

theorem stripR_lineOf (k : Str) (v : Value) : stripR (lineOf (k, v)) = lineOf (k, v) := by
  obtain ⟨rs, r0, he, hr⟩ := valueRepr_concat v
  rw [show lineOf (k, v) = (k ++ ':' :: ' ' :: rs) ++ [r0] from by simp [lineOf, he]]
  exact stripR_concat_nonspace _ r0 hr

theorem pyStrip_lineOf (k : Str) (v : Value) (hk : goodKey k = true) :
    pyStrip (lineOf (k, v)) = lineOf (k, v) :=
  pyStrip_of_both _ (stripL_lineOf k v hk) (stripR_lineOf k v)

theorem valueRepr_no_nl (v : Value) (hv : goodVal v = true) :
    (valueRepr v).contains '\n' = false := by
  cases v with
  | str s =>
    simp only [goodVal, Bool.and_eq_true, Bool.not_eq_true'] at hv
    have hs : '\n' ∉ s := by simpa using hv.1
    simp [valueRepr, hs]
  | bool b => cases b <;> decide
  | int n =>
    obtain ⟨_, hall, _⟩ := natRepr_spec n
    have : '\n' ∉ natRepr n := by
      intro hm
      have := List.all_eq_true.mp hall '\n' hm
      exact absurd this (by decide)
    simp [valueRepr, this]

theorem lineOf_no_nl (k : Str) (v : Value) (hk : goodKey k = true)
    (hv : goodVal v = true) : (lineOf (k, v)).contains '\n' = false := by
  obtain ⟨_, _, _, hknl, _⟩ := goodKey_parts k hk
  have h1 : '\n' ∉ k := by simpa using hknl
  have h2 : '\n' ∉ valueRepr v := by simpa using valueRepr_no_nl v hv
  simp [lineOf, h1, h2]

theorem hasOccur_dashes_valueRepr (v : Value) (hv : goodVal v = true) :
    hasOccur dashes (valueRepr v) = false := by
  cases v with
  | str s =>
    simp only [goodVal, Bool.and_eq_true, Bool.not_eq_true'] at hv
    rw [show valueRepr (Value.str s) = '"' :: (s ++ '"' :: []) from by simp [valueRepr]]
    exact hasOccur_dashes_cons _ _ (by decide)
      (hasOccur_dashes_append_cons s '"' [] hv.2 (by decide) rfl)
  | bool b => cases b <;> decide
  | int n =>
    obtain ⟨_, hall, _⟩ := natRepr_spec n
    exact hasOccur_dashes_of_digits _ hall

theorem hasOccur_dashes_lineOf (k : Str) (v : Value) (hk : goodKey k = true)
    (hv : goodVal v = true) : hasOccur dashes (lineOf (k, v)) = false := by
  obtain ⟨_, _, _, _, hkd⟩ := goodKey_parts k hk
  exact hasOccur_dashes_append_cons k ':' (' ' :: valueRepr v) hkd (by decide)
    (hasOccur_dashes_cons ' ' _ (by decide) (hasOccur_dashes_valueRepr v hv))

theorem coerceRawValue_valueRepr (v : Value) :
    coerceRawValue (valueRepr v) = coerceVal v := by
  cases v with
  | str s =>
    have hpre : List.isPrefixOf ['"'] ('"' :: s ++ ['"']) = true := by
      simp [List.isPrefixOf]
    have hsuf : List.isSuffixOf ['"'] ('"' :: s ++ ['"']) = true := by
      simp [List.isSuffixOf, List.isPrefixOf]
    have hdrop : (('"' :: s ++ ['"']).drop 1).dropLast = s := by simp
    simp only [coerceRawValue, valueRepr, hpre, hsuf, Bool.and_self, if_true, hdrop]
    rfl
  | bool b => cases b <;> decide
  | int n =>
    obtain ⟨hdec, hall, hne⟩ := natRepr_spec n
    cases hn : natRepr n with
    | nil => exact absurd hn hne
    | cons d dt =>
      have hall2 := hall
      rw [hn, List.all_cons, Bool.and_eq_true] at hall2
      have hd := hall2.1
      have hbq1 : ('"' == d) = false := by
        rw [beq_eq_false_iff_ne]
        intro he
        exact (digit_ne d '"' hd (by decide)) ▸ he.symm
      have hbq2 : ('\'' == d) = false := by
        rw [beq_eq_false_iff_ne]
        intro he
        exact (digit_ne d '\'' hd (by decide)) ▸ he.symm
      have hq1 : List.isPrefixOf ['"'] (d :: dt) = false := by
        simp [List.isPrefixOf, hbq1]
      have hq2 : List.isPrefixOf ['\''] (d :: dt) = false := by
        simp [List.isPrefixOf, hbq2]
      have hlow : pyLower (d :: dt) = d :: dt := by
        rw [← hn]
        exact pyLower_digits _ hall
      have hne1 : ((d :: dt : Str) = "true".data) = False := by
        simp [List.cons.injEq, digit_ne d 't' hd (by decide)]
      have hne2 : ((d :: dt : Str) = "false".data) = False := by
        simp [List.cons.injEq, digit_ne d 'f' hd (by decide)]
      have hdig : pyIsDigit (d :: dt) = true := by
        simp [pyIsDigit, hall2.1, hall2.2]
      have hdecs : pyDecimal (d :: dt) = n := by rw [← hn]; exact hdec
      simp only [coerceRawValue, valueRepr, hn, hq1, hq2, Bool.false_and,
        Bool.false_eq_true, if_false]
      simp [hlow, hne1, hne2, hdig, hdecs, coerceVal]

theorem splitFirst_char (c : Char) : ∀ (x y : Str), x.contains c = false →
    splitFirst [c] (x ++ c :: y) = some (x, y) := by
  intro x
  induction x with
  | nil =>
    intro y _
    rw [show ([] : Str) ++ c :: y = c :: y from rfl, splitFirst]
    simp [List.isPrefixOf]
  | cons a x2 ih =>
    intro y hx
    have hm : c ∉ (a :: x2) := by simpa using hx
    have hca : (c == a) = false := by
      rw [beq_eq_false_iff_ne]
      intro he
      exact hm (he ▸ List.mem_cons_self a x2)
    have hx2 : x2.contains c = false := by
      simp only [List.mem_cons, not_or] at hm
      simpa using hm.2
    rw [show (a :: x2) ++ c :: y = a :: (x2 ++ c :: y) from rfl, splitFirst]
    rw [show List.isPrefixOf [c] (a :: (x2 ++ c :: y)) = ((c == a) && true) from by
      simp [List.isPrefixOf]]
    rw [hca]
    simp [ih y hx2]

theorem parseLine_lineOf (acc : Dict) (k : Str) (v : Value) (hk : goodKey k = true)
    (hv : goodVal v = true) :
    parseLine acc (lineOf (k, v)) = dictInsert acc k (coerceVal v) := by
  obtain ⟨hks, hkl, hkc, _, _⟩ := goodKey_parts k hk
  have hcont : (lineOf (k, v)).contains ':' = true := by
    have : (':' : Char) ∈ lineOf (k, v) := by simp [lineOf]
    simpa using this
  have hsp : splitFirst [':'] (lineOf (k, v)) = some (k, ' ' :: valueRepr v) :=
    splitFirst_char ':' k (' ' :: valueRepr v) hkc
  rw [parseLine]
  simp only [pyStrip_lineOf k v hk, hcont, if_true, hsp]
  rw [hks, hkl, pyStrip_space_valueRepr, coerceRawValue_valueRepr]

theorem splitChar_no_occur (c : Char) : ∀ (l : Str), l.contains c = false →
    splitChar c l = [l] := by
  intro l
  induction l with
  | nil => intro _; rfl
  | cons a t ih =>
    intro h
    have hm : c ∉ (a :: t) := by simpa using h
    have hac : ¬ (a = c) := fun he => hm (he ▸ List.mem_cons_self a t)
    have ht : t.contains c = false := by
      simp only [List.mem_cons, not_or] at hm
      simpa using hm.2
    rw [splitChar, if_neg hac, ih ht]

theorem splitChar_append (c : Char) : ∀ (l t : Str), l.contains c = false →
    splitChar c (l ++ c :: t) = l :: splitChar c t := by
  intro l
  induction l with
  | nil =>
    intro t _
    rw [show ([] : Str) ++ c :: t = c :: t from rfl, splitChar, if_pos rfl]
  | cons a l2 ih =>
    intro t h
    have hm : c ∉ (a :: l2) := by simpa using h
    have hac : ¬ (a = c) := fun he => hm (he ▸ List.mem_cons_self a l2)
    have hl2 : l2.contains c = false := by
      simp only [List.mem_cons, not_or] at hm
      simpa using hm.2
    rw [show (a :: l2) ++ c :: t = a :: (l2 ++ c :: t) from rfl, splitChar, if_neg hac,
      ih t hl2]

theorem splitChar_joinChar (c : Char) : ∀ (lines : List Str), lines ≠ [] →
    (∀ l ∈ lines, l.contains c = false) → splitChar c (joinChar c lines) = lines := by
  intro lines
  induction lines with
  | nil => intro h _; exact absurd rfl h
  | cons l ls ih =>
    intro _ h
    cases ls with
    | nil => exact splitChar_no_occur c l (h l (by simp))
    | cons l2 ls2 =>
      rw [joinChar, splitChar_append c l (joinChar c (l2 :: ls2)) (h l (by simp))]
      rw [ih (by simp) (fun q hq => h q (by simp [hq]))]

theorem joinChar_ne_nil (c : Char) (l : Str) (ls : List Str) (hl : l ≠ []) :
    joinChar c (l :: ls) ≠ [] := by
  cases ls with
  | nil => simpa [joinChar] using hl
  | cons l2 ls2 => simp [joinChar, hl]

theorem stripL_joinChar (lines : List Str)
    (h : ∀ l ∈ lines, stripL l = l ∧ l ≠ []) :
    stripL (joinChar '\n' lines) = joinChar '\n' lines := by
  cases lines with
  | nil => rfl
  | cons l ls =>
    cases ls with
    | nil => exact (h l (by simp)).1
    | cons l2 ls2 =>
      rw [joinChar]
      exact stripL_append_of_head l _ (h l (by simp)).1 (h l (by simp)).2

theorem stripR_joinChar : ∀ (lines : List Str),
    (∀ l ∈ lines, stripR l = l ∧ l ≠ []) →
    stripR (joinChar '\n' lines) = joinChar '\n' lines := by
  intro lines
  induction lines with
  | nil => intro _; rfl
  | cons l ls ih =>
    intro h
    cases ls with
    | nil => exact (h l (by simp)).1
    | cons l2 ls2 =>
      rw [joinChar]
      have hJ := ih (fun q hq => h q (by simp [hq]))
      have hJne : joinChar '\n' (l2 :: ls2) ≠ [] :=
        joinChar_ne_nil '\n' l2 ls2 (h l2 (by simp)).2
      rcases List.eq_nil_or_concat (joinChar '\n' (l2 :: ls2)) with hq | ⟨js, j0, hc⟩
      · exact absurd hq hJne
      · rw [List.concat_eq_append] at hc
        have hj0 : pySpace j0 = false := by
          have := pySpace_false_of_stripR_concat js j0 (by rw [← hc]; exact hJ)
          exact this
        rw [hc, show l ++ '\n' :: (js ++ [j0]) = (l ++ '\n' :: js) ++ [j0] from by simp]
        exact stripR_concat_nonspace _ j0 hj0

theorem dictInsert_not_mem : ∀ (acc : Dict) (k : Str) (v : Value),
    (∀ q ∈ acc, q.1 ≠ k) → dictInsert acc k v = acc ++ [(k, v)] := by
  intro acc
  induction acc with
  | nil => intro k v _; rfl
  | cons q acc2 ih =>
    intro k v h
    rw [show (q :: acc2 : Dict) = (q.1, q.2) :: acc2 from by simp, dictInsert]
    rw [if_neg (h q (by simp))]
    rw [ih k v (fun p hp => h p (by simp [hp]))]
    simp

theorem foldl_parseLine : ∀ (m : Dict) (acc : Dict),
    (∀ p ∈ m, goodKey p.1 = true) → (∀ p ∈ m, goodVal p.2 = true) →
    (m.map Prod.fst).Nodup → (∀ p ∈ m, ∀ q ∈ acc, q.1 ≠ p.1) →
    List.foldl parseLine acc (m.map lineOf) =
      acc ++ m.map (fun p => (p.1, coerceVal p.2)) := by
  intro m
  induction m with
  | nil => intro acc _ _ _ _; simp
  | cons p m2 ih =>
    intro acc hkeys hvals hnodup hdisj
    rw [show (p :: m2).map lineOf = lineOf (p.1, p.2) :: m2.map lineOf from by simp]
    rw [List.foldl_cons]
    rw [parseLine_lineOf acc p.1 p.2 (hkeys p (by simp)) (hvals p (by simp))]
    rw [dictInsert_not_mem acc p.1 (coerceVal p.2) (fun q hq => hdisj p (by simp) q hq)]
    have hnodup2 : (m2.map Prod.fst).Nodup := by
      simp only [List.map_cons, List.nodup_cons] at hnodup
      exact hnodup.2
    have hknot : p.1 ∉ m2.map Prod.fst := by
      simp only [List.map_cons, List.nodup_cons] at hnodup
      exact hnodup.1
    have hdisj2 : ∀ r ∈ m2, ∀ q ∈ acc ++ [(p.1, coerceVal p.2)], q.1 ≠ r.1 := by
      intro r hr q hq
      rcases List.mem_append.mp hq with hq1 | hq2
      · exact hdisj r (by simp [hr]) q hq1
      · have : q = (p.1, coerceVal p.2) := by simpa using hq2
        rw [this]
        intro he
        exact hknot (by rw [he]; exact List.mem_map_of_mem Prod.fst hr)
    rw [ih (acc ++ [(p.1, coerceVal p.2)]) (fun r hr => hkeys r (by simp [hr]))
      (fun r hr => hvals r (by simp [hr])) hnodup2 hdisj2]
    simp

theorem parse_encode_core (m : Dict) (b2 : Str)
    (hkeys : ∀ p ∈ m, goodKey p.1 = true) (hvals : ∀ p ∈ m, goodVal p.2 = true)
    (hnodup : (m.map Prod.fst).Nodup) :
    parse_frontmatter (dashes ++ ('\n' :: (joinChar '\n' (m.map lineOf) ++ ['\n'])) ++
        dashes ++ '\n' :: '\n' :: b2) =
      (m.map (fun p => (p.1, coerceVal p.2)), pyStrip b2) := by
  have hlinekeys : ∀ l ∈ m.map lineOf, hasOccur dashes l = false := by
    intro l hl
    obtain ⟨p, hp, rfl⟩ := List.mem_map.mp hl
    exact hasOccur_dashes_lineOf p.1 p.2 (hkeys p hp) (hvals p hp)
  have hFocc : hasOccur dashes (joinChar '\n' (m.map lineOf)) = false :=
    hasOccur_dashes_joinChar _ hlinekeys
  have hx1occ : hasOccur dashes ('\n' :: (joinChar '\n' (m.map lineOf) ++ ['\n'])) = false := by
    refine hasOccur_dashes_cons _ _ (by decide) ?_
    have := hasOccur_dashes_append_cons (joinChar '\n' (m.map lineOf)) '\n' [] hFocc
      (by decide) rfl
    simpa using this
  have hlast : ('\n' :: (joinChar '\n' (m.map lineOf) ++ ['\n'])).getLast? ≠ some '-' := by
    rw [show '\n' :: (joinChar '\n' (m.map lineOf) ++ ['\n']) =
      ('\n' :: joinChar '\n' (m.map lineOf)) ++ ['\n'] from by simp, List.getLast?_concat]
    simp
  have hs2 : splitFirst dashes (('\n' :: (joinChar '\n' (m.map lineOf) ++ ['\n'])) ++
      (dashes ++ '\n' :: '\n' :: b2)) =
      some ('\n' :: (joinChar '\n' (m.map lineOf) ++ ['\n']), '\n' :: '\n' :: b2) := by
    have h := splitFirst_dashes_mid ('\n' :: (joinChar '\n' (m.map lineOf) ++ ['\n']))
      ('\n' :: '\n' :: b2) hx1occ hlast
    rw [List.append_assoc] at h
    exact h
  have hs1 : splitFirst dashes ((dashes ++ ('\n' :: (joinChar '\n' (m.map lineOf) ++
      ['\n']))) ++ (dashes ++ '\n' :: '\n' :: b2)) =
      some ([], ('\n' :: (joinChar '\n' (m.map lineOf) ++ ['\n'])) ++
        (dashes ++ '\n' :: '\n' :: b2)) := by
    have h := splitFirst_self dashes (('\n' :: (joinChar '\n' (m.map lineOf) ++ ['\n'])) ++
      (dashes ++ '\n' :: '\n' :: b2)) (by decide)
    rw [← List.append_assoc] at h
    exact h
  have hFL : stripL (joinChar '\n' (m.map lineOf)) = joinChar '\n' (m.map lineOf) := by
    apply stripL_joinChar
    intro l hl
    obtain ⟨p, hp, rfl⟩ := List.mem_map.mp hl
    exact ⟨stripL_lineOf p.1 p.2 (hkeys p hp), lineOf_ne_nil p.1 p.2⟩
  have hFR : stripR (joinChar '\n' (m.map lineOf)) = joinChar '\n' (m.map lineOf) := by
    apply stripR_joinChar
    intro l hl
    obtain ⟨p, hp, rfl⟩ := List.mem_map.mp hl
    exact ⟨stripR_lineOf p.1 p.2, lineOf_ne_nil p.1 p.2⟩
  have hwrap : pyStrip ('\n' :: (joinChar '\n' (m.map lineOf) ++ ['\n'])) =
      joinChar '\n' (m.map lineOf) := pyStrip_wrap _ hFL hFR
  have hfold : (splitChar '\n' (joinChar '\n' (m.map lineOf))).foldl parseLine [] =
      m.map (fun p => (p.1, coerceVal p.2)) := by
    cases m with
    | nil => rfl
    | cons p m2 =>
      rw [splitChar_joinChar '\n' ((p :: m2).map lineOf) (by simp) (by
        intro l hl
        obtain ⟨q, hq, rfl⟩ := List.mem_map.mp hl
        exact lineOf_no_nl q.1 q.2 (hkeys q hq) (hvals q hq))]
      have h := foldl_parseLine (p :: m2) [] hkeys hvals hnodup (by simp)
      simpa using h
  have hpre : List.isPrefixOf "---".data ((dashes ++ ('\n' :: (joinChar '\n'
      (m.map lineOf) ++ ['\n']))) ++ (dashes ++ '\n' :: '\n' :: b2)) = true := by
    have h := isPrefixOf_self_append dashes (('\n' :: (joinChar '\n' (m.map lineOf) ++
      ['\n'])) ++ (dashes ++ '\n' :: '\n' :: b2))
    rw [← List.append_assoc] at h
    exact h
  have hshape : dashes ++ ('\n' :: (joinChar '\n' (m.map lineOf) ++ ['\n'])) ++
      dashes ++ '\n' :: '\n' :: b2 =
      (dashes ++ ('\n' :: (joinChar '\n' (m.map lineOf) ++ ['\n']))) ++
        (dashes ++ '\n' :: '\n' :: b2) := by
    simp
  rw [hshape, parse_frontmatter, hpre]
  simp only [Bool.not_true, Bool.false_eq_true, if_false]
  rw [show (['-', '-', '-'] : Str) = dashes from rfl, pySplit2]
  simp only [hs1, hs2]
  rw [hwrap, hfold]
  rw [pyStrip_cons_space '\n' _ (by decide), pyStrip_cons_space '\n' _ (by decide)]

theorem write_frontmatter_none_shape (m : Dict) (b : Str) :
    write_frontmatter m b none =
      dashes ++ ('\n' :: (joinChar '\n' (m.map lineOf) ++ ['\n'])) ++ dashes ++
        '\n' :: '\n' :: b := by
  rw [write_frontmatter]
  rw [show "---\n".data = ['-', '-', '-', '\n'] from rfl,
    show "\n---\n\n".data = ['\n', '-', '-', '-', '\n', '\n'] from rfl]
  rw [show (fun (p : Str × Value) => p.1 ++ ':' :: ' ' :: valueRepr p.2) = lineOf from rfl]
  simp [dashes]

theorem write_frontmatter_some_shape (m : Dict) (b r : Str) (hrne : r ≠ []) :
    write_frontmatter m b (some r) =
      dashes ++ ('\n' :: (joinChar '\n' (m.map lineOf) ++ ['\n'])) ++ dashes ++
        '\n' :: '\n' :: (b ++ "\n\n---\n\n## Response\n\n".data ++ r ++ ['\n']) := by
  rw [write_frontmatter]
  rw [show (r.isEmpty : Bool) = false from by simpa [List.isEmpty_iff] using hrne]
  rw [show "---\n".data = ['-', '-', '-', '\n'] from rfl,
    show "\n---\n\n".data = ['\n', '-', '-', '-', '\n', '\n'] from rfl]
  rw [show (fun (p : Str × Value) => p.1 ++ ':' :: ' ' :: valueRepr p.2) = lineOf from rfl]
  simp [dashes]

theorem pyStrip_body_resp (b r : Str) (hb : pyStrip b = b) (hbne : b ≠ [])
    (hr : pyStrip r = r) (hrne : r ≠ []) :
    pyStrip (b ++ "\n\n---\n\n## Response\n\n".data ++ r ++ ['\n']) =
      b ++ "\n\n---\n\n## Response\n\n".data ++ r := by
  obtain ⟨hbL, hbR⟩ := pyStrip_eq_self_split b hb
  obtain ⟨hrL, hrR⟩ := pyStrip_eq_self_split r hr
  rw [pyStrip]
  rw [show b ++ "\n\n---\n\n## Response\n\n".data ++ r ++ ['\n'] =
    b ++ ("\n\n---\n\n## Response\n\n".data ++ r ++ ['\n']) from by simp]
  rw [stripL_append_of_head b _ hbL hbne]
  rw [show b ++ ("\n\n---\n\n## Response\n\n".data ++ r ++ ['\n']) =
    (b ++ "\n\n---\n\n## Response\n\n".data ++ r) ++ ['\n'] from by simp]
  rw [stripR_concat_space _ '\n' (by decide)]
  exact stripR_append_of_last _ r hrR hrne

/-- The probe for an occurrence of the body/response delimiter. -/
def nlDash : Str := ['\n', '-', '-', '-']

/-- The body/response delimiter `view_task` splits on. -/
def nlDashNl : Str := ['\n', '-', '-', '-', '\n']

theorem splitFirst_nlDashNl : ∀ (b t : Str), hasOccur nlDash b = false →
    splitFirst nlDashNl ((b ++ ['\n']) ++ (nlDashNl ++ t)) = some (b ++ ['\n'], t) := by
  intro b
  induction b with
  | nil =>
    intro t _
    rw [show (([] : Str) ++ ['\n']) ++ (nlDashNl ++ t) = '\n' :: (nlDashNl ++ t) from by
      simp]
    rw [splitFirst]
    have hpf : nlDashNl.isPrefixOf ('\n' :: (nlDashNl ++ t)) = false := by
      simp [nlDashNl, List.isPrefixOf, List.cons_append]
    rw [hpf]
    have h2 : splitFirst nlDashNl (nlDashNl ++ t) = some ([], t) :=
      splitFirst_self _ _ (by decide)
    simp [h2]
  | cons c b2 ih =>
    intro t hb
    obtain ⟨hb1, hb2⟩ := hasOccur_cons_false nlDash c b2 hb
    rw [show ((c :: b2) ++ ['\n']) ++ (nlDashNl ++ t) =
      c :: ((b2 ++ ['\n']) ++ (nlDashNl ++ t)) from by simp]
    rw [splitFirst]
    have hpf : nlDashNl.isPrefixOf (c :: ((b2 ++ ['\n']) ++ (nlDashNl ++ t))) = false := by
      by_cases hc : c = '\n'
      · subst hc
        cases b2 with
        | nil => simp [nlDashNl, List.isPrefixOf, List.cons_append]
        | cons p b3 =>
          by_cases hp : p = '-'
          · subst hp
            cases b3 with
            | nil => simp [nlDashNl, List.isPrefixOf, List.cons_append]
            | cons q b4 =>
              by_cases hq : q = '-'
              · subst hq
                cases b4 with
                | nil => simp [nlDashNl, List.isPrefixOf, List.cons_append]
                | cons d b5 =>
                  by_cases hd : d = '-'
                  · subst hd
                    exfalso
                    simp [nlDash, List.isPrefixOf] at hb1
                  · simp [nlDashNl, List.isPrefixOf, List.cons_append, beq_iff_eq,
                      Ne.symm hd]
              · simp [nlDashNl, List.isPrefixOf, List.cons_append, beq_iff_eq,
                  Ne.symm hq]
          · simp [nlDashNl, List.isPrefixOf, List.cons_append, beq_iff_eq, Ne.symm hp]
      · simp [nlDashNl, List.isPrefixOf, beq_iff_eq, Ne.symm hc]
    rw [hpf]
    simp only [Bool.false_eq_true, if_false, ih t hb2, List.cons_append]

theorem separateResponse_encoded (b r : Str) (hb : pyStrip b = b) (hbne : b ≠ [])
    (hbocc : hasOccur nlDash b = false) (hr : pyStrip r = r) (hrne : r ≠ []) :
    separateResponse (b ++ "\n\n---\n\n## Response\n\n".data ++ r) = (b, some r) := by
  obtain ⟨hbL, hbR⟩ := pyStrip_eq_self_split b hb
  obtain ⟨hrL, hrR⟩ := pyStrip_eq_self_split r hr
  have hshape1 : b ++ "\n\n---\n\n## Response\n\n".data ++ r =
      (b ++ ['\n']) ++ (nlDashNl ++ ("\n## Response\n\n".data ++ r)) := by
    simp [nlDashNl]
  have hocc1 : hasOccur "\n---\n".data (b ++ "\n\n---\n\n## Response\n\n".data ++ r) =
      true := by
    rw [show b ++ "\n\n---\n\n## Response\n\n".data ++ r =
      (b ++ ['\n']) ++ "\n---\n".data ++ ("\n## Response\n\n".data ++ r) from by simp]
    exact hasOccur_intro _ _ _ (by decide)
  have hocc2 : hasOccur "## Response".data (b ++ "\n\n---\n\n## Response\n\n".data ++ r) =
      true := by
    rw [show b ++ "\n\n---\n\n## Response\n\n".data ++ r =
      (b ++ "\n\n---\n\n".data) ++ "## Response".data ++ ("\n\n".data ++ r) from by simp]
    exact hasOccur_intro _ _ _ (by decide)
  have hsp : splitFirst "\n---\n".data (b ++ "\n\n---\n\n## Response\n\n".data ++ r) =
      some (b ++ ['\n'], "\n## Response\n\n".data ++ r) := by
    rw [hshape1]
    exact splitFirst_nlDashNl b _ hbocc
  have hsp2 : splitFirst "## Response".data ("\n## Response\n\n".data ++ r) =
      some (['\n'], '\n' :: '\n' :: r) := by
    rw [show "\n## Response\n\n".data ++ r =
      '\n' :: ("## Response".data ++ ('\n' :: '\n' :: r)) from by simp]
    rw [splitFirst]
    have hpf : List.isPrefixOf "## Response".data
        ('\n' :: ("## Response".data ++ ('\n' :: '\n' :: r))) = false := by
      simp [List.isPrefixOf, List.cons_append]
    rw [hpf]
    simp only [Bool.false_eq_true, if_false,
      splitFirst_self "## Response".data ('\n' :: '\n' :: r) (by decide)]
  have hstrip1 : pyStrip (b ++ ['\n']) = b := by
    rw [pyStrip, stripL_append_of_head b _ hbL hbne, stripR_concat_space _ '\n' (by decide),
      hbR]
  have hstrip2 : pyStrip ('\n' :: '\n' :: r) = r := by
    rw [pyStrip_cons_space _ _ (by decide), pyStrip_cons_space _ _ (by decide), hr]
  rw [separateResponse, hocc1, hocc2]
  simp only [Bool.and_self, if_true, hsp, hsp2, hstrip1, hstrip2]

/-- Counterexample to C2: with body `" x"` (leading blank) the decoded body
is the stripped `"x"`, not the input body, so the round-trip does not hold
for every metadata mapping and body. -/
theorem c2_counterexample :
    (parse_frontmatter (write_frontmatter [] " x".data none)).2 ≠ " x".data := by decide

/-- C2 amended: for every metadata mapping with round-trippable keys and
values (trimmed lowercase keys without colon, newline or the `---`
delimiter; string values without newline or the delimiter; distinct keys)
and every trimmed nonempty body free of the `"\n---"` probe, decoding the
encoded document yields the metadata modulo boolean/integer coercion and
the body exactly; when a trimmed nonempty response was supplied to encode,
the decoded body carries the response section appended, and the
`view_task` separation recovers body and response at the delimiter
immediately preceding the `## Response` heading. -/
theorem c2_roundtrip (m : Dict) (b r : Str)
    (hkeys : ∀ p ∈ m, goodKey p.1 = true) (hvals : ∀ p ∈ m, goodVal p.2 = true)
    (hnodup : (m.map Prod.fst).Nodup)
    (hb : pyStrip b = b) (hbne : b ≠ []) (hbocc : hasOccur nlDash b = false)
    (hr : pyStrip r = r) (hrne : r ≠ []) :
    parse_frontmatter (write_frontmatter m b none) =
      (m.map fun p => (p.1, coerceVal p.2), b) ∧
    parse_frontmatter (write_frontmatter m b (some r)) =
      (m.map fun p => (p.1, coerceVal p.2), b ++ "\n\n---\n\n## Response\n\n".data ++ r) ∧
    separateResponse (b ++ "\n\n---\n\n## Response\n\n".data ++ r) = (b, some r) := by
  refine ⟨?_, ?_, ?_⟩
  · rw [write_frontmatter_none_shape, parse_encode_core m b hkeys hvals hnodup, hb]
  · rw [write_frontmatter_some_shape m b r hrne,
      parse_encode_core m (b ++ "\n\n---\n\n## Response\n\n".data ++ r ++ ['\n'])
        hkeys hvals hnodup,
      pyStrip_body_resp b r hb hbne hr hrne]
  · exact separateResponse_encoded b r hb hbne hbocc hr hrne

/-- Witness for the amended C2 at a concrete document with string, integer
and boolean metadata, a body and a response. -/
theorem c2_witness :
    parse_frontmatter (write_frontmatter
        [("status".data, Value.str "pending".data), ("n".data, Value.int 7),
         ("ok".data, Value.bool true)] "hello world".data none) =
      ([("status".data, Value.str "pending".data), ("n".data, Value.int 7),
        ("ok".data, Value.bool true)], "hello world".data) ∧
    separateResponse ("hello world".data ++ "\n\n---\n\n## Response\n\n".data ++
        "result text".data) = ("hello world".data, some "result text".data) := by
  have h := c2_roundtrip
    [("status".data, Value.str "pending".data), ("n".data, Value.int 7),
     ("ok".data, Value.bool true)] "hello world".data "result text".data
    (by decide) (by decide) (by decide) (by decide) (by decide) (by decide)
    (by decide) (by decide)
  exact ⟨h.1.trans (by decide), h.2.2⟩
